import Mathlib

/-!
# Verification of the OpenLR map-matching router (`openlr/router.cpp`)

A shallow embedding of the router's data model and algorithms, together with
theorems settling the specification's claims against it.

Modelling conventions:
* C++ `double` values are embedded as exact rationals `ℚ` (idealised real
  arithmetic); the one place where the irrational constant π appears
  (degree → radian conversion, performed by the external helper
  `my::DegToRad`) is kept as an explicit function parameter `degToRad`, so
  that theorems can instantiate it with `fun d => d * π / 180` over `ℝ`.
* External collaborators (the road graph, geometry helpers, the road-info
  lookup) are parameters: an abstract graph type `G` with a `GraphOps G`
  record of queries, and an `Env` record of geometry callbacks.
* `CHECK`/`ASSERT` macros abort the process when they fail; the input
  precondition `CHECK(points.size() >= 2)` of `Init` is modelled by
  returning `none` (no normal return), internal invariant checks are
  modelled as no-ops (the relevant claims prove they hold).
* The unbounded search loop is modelled with explicit fuel, returning
  `none` when the fuel is exhausted; theorems about results quantify over
  every fuel value, covering every terminating execution.
-/

namespace OpenLR

/-- `m2::PointD`: a projected 2-D coordinate. -/
abbrev Point := ℚ × ℚ

/-- Componentwise difference of points (`m2::PointD::operator-`). -/
def psub (a b : Point) : Point := (a.1 - b.1, a.2 - b.2)

/-- Modelled from the spec: the geometry utilities' 2-D dot product
(`m2::DotProduct`), which is not under `src/`. -/
def dotProduct (a b : Point) : ℚ := a.1 * b.1 + a.2 * b.2

/-- Modelled from the spec: `m2::PointD::SquareLength`, the squared Euclidean
distance between two points (not under `src/`). -/
def squareLength (a b : Point) : ℚ := dotProduct (psub b a) (psub b a)

/-- `my::clamp(x, lo, hi)` from `base/math.hpp` (not under `src/`).
Modelled from the spec: clamp a value into `[lo, hi]`. -/
def clamp (x lo hi : ℚ) : ℚ := max lo (min x hi)

/-- `routing::Junction`: a graph point with an altitude.  Modelled from the
spec: two junctions are equal iff point and altitude match exactly. -/
structure Junction where
  point : Point
  altitude : ℤ
deriving DecidableEq, Repr

/-- `routing::Edge`: a raw directed graph edge, with the attributes the
router reads: fakeness, part-of-real flag, feature id and endpoints. -/
structure REdge where
  isFake : Bool
  partOfReal : Bool
  featureId : ℕ
  startJ : Junction
  endJ : Junction
deriving DecidableEq, Repr

/-- `routing::Edge::MakeFake(u, v, partOfReal)`. -/
def REdge.makeFake (u v : Junction) (partOfReal : Bool) : REdge :=
  ⟨true, partOfReal, 0, u, v⟩

/-- Modelled from the spec: `routing::Edge::GetReverseEdge` swaps the
endpoints (used as `e.reverse()` during reattachment). -/
def REdge.reverse (e : REdge) : REdge := { e with startJ := e.endJ, endJ := e.startJ }

/-- A default-constructed `routing::Edge` (used to initialise the
best-candidate variables before any candidate has been seen). -/
def defaultREdge : REdge := ⟨false, false, 0, ⟨(0, 0), 0⟩, ⟨(0, 0), 0⟩⟩

/-- `openlr::WayPoint` as used by the router. -/
structure WayPoint where
  point : Point
  distanceToNextPointM : ℚ
  bearing : ℤ
  lfrcnp : ℤ
deriving DecidableEq, Repr

/-- A default way-point (stands for reading `m_points` out of range, which
the source rules out by `CHECK`ed invariants). -/
def defaultWP : WayPoint := ⟨(0, 0), 0, 0, 0⟩

-- Tunable constants of the router (values from the anonymous namespace).

/-- `kMaxRoadCandidates = 10`. -/
def kMaxRoadCandidates : ℕ := 10
/-- `kDistanceAccuracyM = 1000`. -/
def kDistanceAccuracyM : ℚ := 1000
/-- `kEps = 1e-9`. -/
def kEps : ℚ := 1 / 1000000000
/-- `kBearingDist = 25`. -/
def kBearingDist : ℚ := 25
/-- `kNumBuckets = 256`. -/
def kNumBuckets : ℤ := 256
/-- `kAnglesInBucket = 360.0 / kNumBuckets`. -/
def kAnglesInBucket : ℚ := 360 / 256

/-!  ## The `Score` class

`Score` carries a (reduced) distance and a penalty, both `double`s in the
source.  It is embedded generically over a linear ordered field so that the
degree→radian conversion can be instantiated exactly (with π over `ℝ`) in
the bearing-penalty theorem while the search pipeline runs over `ℚ`. -/

/-- The `Score` class: a reduced path length (`m_distance`) plus an
accumulated penalty (`m_penalty`). -/
structure Score (α : Type) where
  distance : α
  penalty : α
deriving DecidableEq, Repr

variable {α : Type} [LinearOrderedField α]

/-- A default-constructed `Score` (both components zero). -/
def Score.init : Score α := ⟨0, 0⟩

/-- `Score::AddDistance`. -/
def Score.addDistance (s : Score α) (p : α) : Score α :=
  { s with distance := s.distance + p }

/-- `Score::AddFakePenalty`: `m_penalty += (partOfReal ? kFakeCoeff :
kTrueFakeCoeff) * p` with `kFakeCoeff = 0.001`, `kTrueFakeCoeff = 10`. -/
def Score.addFakePenalty (s : Score α) (p : α) (partOfReal : Bool) : Score α :=
  { s with penalty := s.penalty + (if partOfReal then (1 / 1000 : α) else 10) * p }

/-- `Score::AddIntermediateErrorPenalty`: `m_penalty += 3 * p`. -/
def Score.addIntermediateErrorPenalty (s : Score α) (p : α) : Score α :=
  { s with penalty := s.penalty + 3 * p }

/-- `Score::AddDistanceErrorPenalty`: `m_penalty += 3 * p`. -/
def Score.addDistanceErrorPenalty (s : Score α) (p : α) : Score α :=
  { s with penalty := s.penalty + 3 * p }

/-- `Score::AddBearingPenalty(expected, actual)`:
`diff = abs(expected - actual)`,
`angle = DegToRad(min(diff, kNumBuckets - diff) * kAnglesInBucket)`,
`m_penalty += kBearingErrorCoeff * angle * kBearingDist` with
`kBearingErrorCoeff = 5`, `kBearingDist = 25`.  The external conversion
`my::DegToRad` is the parameter `degToRad`. -/
def Score.addBearingPenalty (degToRad : ℚ → α) (s : Score α)
    (expected actual : ℤ) : Score α :=
  let diff : ℤ := |expected - actual|
  let angle : α := degToRad ((min diff (kNumBuckets - diff) : ℤ) * kAnglesInBucket)
  { s with penalty := s.penalty + 5 * angle * 25 }

/-- `Score::GetScore()`: `m_distance + m_penalty`. -/
def Score.getScore (s : Score α) : α := s.distance + s.penalty

/-- `Score::operator<`: compare `GetScore()` first, then `m_distance`, then
`m_penalty` (each tier entered only when the previous one ties). -/
def Score.lt (a b : Score α) : Prop :=
  (a.getScore ≠ b.getScore ∧ a.getScore < b.getScore) ∨
  (a.getScore = b.getScore ∧ a.distance ≠ b.distance ∧ a.distance < b.distance) ∨
  (a.getScore = b.getScore ∧ a.distance = b.distance ∧ a.penalty < b.penalty)

instance Score.decidableLt (a b : Score ℚ) : Decidable (Score.lt a b) := by
  unfold Score.lt; exact inferInstance

/-!  ## The bearing quantizer

`Bearing(a, b)` computes a compass angle via external helpers
(`ang::AngleTo`, `my::RadToDeg`, `location::AngleToBearing`, none under
`src/`; modelled from the spec as a single callback returning the bearing
in degrees, normalised to `[0, 360]`), divides by `kAnglesInBucket`, clamps
to `[0, 255]` and truncates to an unsigned integer. -/

/-- The bucket computation of `Bearing` applied to the externally computed
compass angle in degrees: `my::clamp(angle / kAnglesInBucket, 0.0, 255.0)`
converted to an unsigned integer (truncation; the value is non-negative, so
truncation is the floor). -/
def bearingBucket (angleDeg : ℚ) : ℕ :=
  (clamp (angleDeg / kAnglesInBucket) 0 255).floor.toNat

/-!  ## Search state: `Router::Vertex` and `Router::Edge` -/

/-- `Router::Vertex`: `(junction, stageStart, stageStartDistance, stage,
bearingChecked)`. -/
structure Vertex where
  junction : Junction
  stageStart : Junction
  stageStartDistance : ℚ
  stage : ℕ
  bearingChecked : Bool
deriving DecidableEq, Repr

/-- Modelled from the spec: `m2::PointD::operator<` (lexicographic order on
coordinates; not under `src/`, used only for map keys / tie-breaking). -/
def pointLt (a b : Point) : Bool :=
  decide (a.1 < b.1) || (decide (a.1 = b.1) && decide (a.2 < b.2))

/-- Modelled from the spec: `routing::Junction::operator<` (lexicographic on
point, then altitude; not under `src/`). -/
def junctionLt (a b : Junction) : Bool :=
  if a.point ≠ b.point then pointLt a.point b.point
  else decide (a.altitude < b.altitude)

/-- `Router::Vertex::operator<`: lexicographic comparison of the five
fields, mirroring the chain of `if (x != rhs.x) return x < rhs.x;`. -/
def Vertex.lt (a b : Vertex) : Bool :=
  if a.junction ≠ b.junction then junctionLt a.junction b.junction
  else if a.stageStart ≠ b.stageStart then junctionLt a.stageStart b.stageStart
  else if a.stageStartDistance ≠ b.stageStartDistance then
    decide (a.stageStartDistance < b.stageStartDistance)
  else if a.stage ≠ b.stage then decide (a.stage < b.stage)
  else !a.bearingChecked && b.bearingChecked

/-- `Router::Edge`: a search edge `(u, v, raw, isSpecial)`. -/
structure Edge where
  u : Vertex
  v : Vertex
  raw : REdge
  isSpecial : Bool
deriving DecidableEq, Repr

/-- `Router::Edge::MakeNormal`. -/
def Edge.makeNormal (u v : Vertex) (raw : REdge) : Edge := ⟨u, v, raw, false⟩

/-- `Router::Edge::MakeSpecial`: raw part is a non-part-of-real fake edge
between the two junctions. -/
def Edge.makeSpecial (u v : Vertex) : Edge :=
  ⟨u, v, REdge.makeFake u.junction v.junction false, true⟩

/-- `Router::Edge::ToPair`: `(raw.start.point, raw.end.point)`. -/
def Edge.toPair (e : Edge) : Point × Point :=
  (e.raw.startJ.point, e.raw.endJ.point)

/-- `Router::Edge::ToPairRev`: `(raw.end.point, raw.start.point)`. -/
def Edge.toPairRev (e : Edge) : Point × Point :=
  (e.raw.endJ.point, e.raw.startJ.point)

/-!  ## External collaborators

The road graph and the geometry/road-info helpers are outside the core
(spec §6); they are parameters of the embedding. -/

/-- Geometry and road-info callbacks used by the router. -/
structure Env where
  /-- `MercatorBounds::DistanceOnEarth`: geodesic distance between points. -/
  distanceOnEarth : Point → Point → ℚ
  /-- `PointAtSegment(from, to, d)`: the point at distance `d` from `from`
  along the segment towards `to`. -/
  pointAtSegment : Point → Point → ℚ → Point
  /-- The compass bearing in degrees from `a` to `b`, normalised to
  `[0, 360]`: `location::AngleToBearing(my::RadToDeg(ang::AngleTo(a, b)))`. -/
  angleDeg : Point → Point → ℚ
  /-- `m2::IsPointOnSegmentEps(pt, segStart, segEnd, eps)`. -/
  isPointOnSegmentEps : Point → Point → Point → ℚ → Bool
  /-- `RoadInfoGetter::Get(featureId).m_frc` as an integer road class. -/
  frc : ℕ → ℤ
  /-- Modelled from the spec: `my::DegToRad` (degree → radian conversion,
  `base/math.hpp`, not under `src/`). -/
  degToRad : ℚ → ℚ

/-- `routing::FeaturesRoadGraph` operations over an abstract graph state
`G` (fake-edge injection mutates the state). -/
structure GraphOps (G : Type) where
  /-- `FindClosestEdges(point, count, vicinity)`. -/
  findClosestEdges : G → Point → ℕ → List (REdge × Junction)
  /-- `ResetFakes()`. -/
  resetFakes : G → G
  /-- `AddFakeEdges(junction, vicinity)`. -/
  addFakeEdges : G → Junction → List (REdge × Junction) → G
  /-- `GetRegularOutgoingEdges`. -/
  regularOutgoing : G → Junction → List REdge
  /-- `GetRegularIngoingEdges`. -/
  regularIngoing : G → Junction → List REdge
  /-- `GetFakeOutgoingEdges`. -/
  fakeOutgoing : G → Junction → List REdge
  /-- `GetFakeIngoingEdges`. -/
  fakeIngoing : G → Junction → List REdge

/-- `Bearing(a, b)` of the source: quantize the externally computed compass
angle from `a` to `b`. -/
def bearing (env : Env) (a b : Point) : ℕ :=
  bearingBucket (env.angleDeg a b)

/-!  ## Edge cache and restricted enumeration -/

/-- A per-junction cache of regular edges (`m_outgoingCache` /
`m_ingoingCache`), an association list keyed by junction. -/
abbrev Caches := List (Junction × List REdge)

/-- Cache lookup (`std::map::find`). -/
def cacheFind (c : Caches) (u : Junction) : Option (List REdge) :=
  (c.find? (fun p => p.1 = u)).map (·.2)

/-- `Router::GetEdges`: on a cache miss fetch and memoize the regular
edges, then always append the fake edges fresh.  Returns the edge list and
the updated cache. -/
def getEdges {G : Type} (graph : G) (getRegular getFake : G → Junction → List REdge)
    (cache : Caches) (u : Junction) : List REdge × Caches :=
  match cacheFind cache u with
  | none =>
      let es := getRegular graph u
      (es ++ getFake graph u, (u, es) :: cache)
  | some es => (es ++ getFake graph u, cache)

/-- `Router::GetOutgoingEdges` (uses `m_outgoingCache`). -/
def getOutgoingEdges {G : Type} (ops : GraphOps G) (graph : G) (cache : Caches)
    (u : Junction) : List REdge × Caches :=
  getEdges graph ops.regularOutgoing ops.fakeOutgoing cache u

/-- `Router::GetIngoingEdges` (uses `m_ingoingCache`). -/
def getIngoingEdges {G : Type} (ops : GraphOps G) (graph : G) (cache : Caches)
    (u : Junction) : List REdge × Caches :=
  getEdges graph ops.regularIngoing ops.fakeIngoing cache u

/-- `Router::PassesRestriction(edge, restriction)`: fake edges always pass;
a real edge passes iff `frc(featureId) <= restriction + kTolerance` with
`kTolerance = 3`. -/
def passesRestriction (env : Env) (e : REdge) (restriction : ℤ) : Bool :=
  if e.isFake then true
  else decide (env.frc e.featureId ≤ restriction + 3)

/-- `Router::ForEachEdge(u, outgoing, restriction, fn)`: enumerate the
(cached) regular and (fresh) fake edges at `u.junction` and keep those that
pass the road-class restriction; the callback is invoked exactly on the
returned list, in order.  Returns the updated pair of caches. -/
def forEachEdgeList {G : Type} (env : Env) (ops : GraphOps G) (graph : G)
    (ocache icache : Caches) (u : Vertex) (outgoing : Bool) (restriction : ℤ) :
    List REdge × Caches × Caches :=
  if outgoing then
    let fetched := getOutgoingEdges ops graph ocache u.junction
    (fetched.1.filter (fun e => passesRestriction env e restriction),
      fetched.2, icache)
  else
    let fetched := getIngoingEdges ops graph icache u.junction
    (fetched.1.filter (fun e => passesRestriction env e restriction),
      ocache, fetched.2)

/-!  ## Search-engine helpers -/

/-- Modelled from the spec: `Router::IsFinalVertex` (declared in
`router.hpp`, not under `src/`): a vertex is final iff its stage equals
`num_points - 1`. -/
def isFinalVertex (numPoints : ℕ) (u : Vertex) : Bool :=
  u.stage == numPoints - 1

/-- Modelled from the spec: `Router::GetWeight` of a raw edge (declared in
`router.hpp`, not under `src/`): the geodesic length of the edge. -/
def getWeight (env : Env) (e : REdge) : ℚ :=
  env.distanceOnEarth e.startJ.point e.endJ.point

/-- `Router::GetPotential(u)`: `0` for a final vertex, otherwise the
minimum geodesic distance from the junction to any pivot of the current
stage.  (The source seeds the minimum with `DBL_MAX` and `CHECK`s that the
pivot list is non-empty; seeding with the first pivot is equivalent.  An
out-of-range or empty pivot list would abort and is modelled as `0`.) -/
def getPotential (env : Env) (pivots : List (List Point)) (numPoints : ℕ)
    (u : Vertex) : ℚ :=
  if isFinalVertex numPoints u then 0
  else
    match pivots.getD u.stage [] with
    | [] => 0
    | p :: ps =>
        ps.foldl (fun acc q => min acc (env.distanceOnEarth q u.junction.point))
          (env.distanceOnEarth p u.junction.point)

/-- `Router::NearNextStage(u, pi)`: `u.stage < pivots.size && pi < kEps`. -/
def nearNextStage (pivots : List (List Point)) (u : Vertex) (pi : ℚ) : Bool :=
  decide (u.stage < pivots.length) && decide (pi < kEps)

/-- `Router::MayMoveToNextStage(u, pi)`. -/
def mayMoveToNextStage (pivots : List (List Point)) (u : Vertex) (pi : ℚ) : Bool :=
  nearNextStage pivots u pi && u.bearingChecked

/-- `Router::NeedToCheckBearing(u, distanceM)`. -/
def needToCheckBearing (numPoints : ℕ) (u : Vertex) (distanceM : ℚ) : Bool :=
  if isFinalVertex numPoints u || u.bearingChecked then false
  else decide (distanceM ≥ u.stageStartDistance + kBearingDist)

/-!  ## The relaxation state and `pushVertex` -/

/-- The mutable state of `Router::FindPath`: the priority queue, the
best-score map and the back-link map.  Maps are modelled as association
lists where an insertion prepends (shadowing earlier entries). -/
structure SearchCtx where
  queue : List (Score ℚ × Vertex)
  scores : List (Vertex × Score ℚ)
  links : List (Vertex × (Vertex × Edge))
deriving Repr

/-- Lookup in the `scores` map. -/
def lookupScore (m : List (Vertex × Score ℚ)) (v : Vertex) : Option (Score ℚ) :=
  (m.find? (fun p => p.1 = v)).map (·.2)

/-- Lookup in the `links` map. -/
def lookupLink (m : List (Vertex × (Vertex × Edge))) (v : Vertex) :
    Option (Vertex × Edge) :=
  (m.find? (fun p => p.1 = v)).map (·.2)

/-- The `pushVertex` lambda of `Router::FindPath`: insert `v` with score
`sv` and back-link `(u, e)` only when
`(scores.count(v) == 0 || scores[v].GetScore() > sv.GetScore() + kEps) && u != v`;
otherwise leave the state untouched.  (The second disjunct is evaluated by
C++ only when the entry exists; the total `getD` default is harmless since
the first disjunct is then true.) -/
def pushVertex (st : SearchCtx) (u v : Vertex) (sv : Score ℚ) (e : Edge) :
    SearchCtx :=
  if (lookupScore st.scores v = none ∨
      ((lookupScore st.scores v).getD Score.init).getScore > sv.getScore + kEps) ∧
      u ≠ v then
    { queue := (sv, v) :: st.queue
      scores := (v, sv) :: st.scores
      links := (v, (u, e)) :: st.links }
  else st

/-!  ## The priority queue

`std::priority_queue<State, vector<State>, greater<State>>` pops a minimal
`(Score, Vertex)` pair under the lexicographic pair order built from
`Score::operator<` and `Vertex::operator<`.  The model extracts the first
minimal element of the queue list. -/

/-- `std::pair<Score, Vertex>` `operator<` (lexicographic). -/
def stateLt (a b : Score ℚ × Vertex) : Bool :=
  decide (Score.lt a.1 b.1) ||
    (!decide (Score.lt b.1 a.1) && Vertex.lt a.2 b.2)

/-- Pop a minimal element: `queue.top(); queue.pop()`. -/
def popMin (q : List (Score ℚ × Vertex)) :
    Option ((Score ℚ × Vertex) × List (Score ℚ × Vertex)) :=
  match q with
  | [] => none
  | x :: xs =>
      let m := xs.foldl (fun b y => if stateLt y b then y else b) x
      some (m, q.erase m)

/-- `Router::GetReverseBearing(u, links)`: walk back along same-stage
back-links accumulating edge weights until `kBearingDist` is covered, then
interpolate the point at the remaining distance back along that edge; if
the walk exhausts the stage, use the junction reached.  The source loop
terminates because back-links are acyclic; the model carries fuel
(`links.length + 1` suffices) and falls back to the current junction if it
ever ran out. -/
def getReverseBearingAux (env : Env) (links : List (Vertex × (Vertex × Edge)))
    (a : Point) : ℕ → Vertex → ℚ → ℕ
  | 0, curr, _ => bearing env a curr.junction.point
  | fuel + 1, curr, passed =>
      match lookupLink links curr with
      | none => bearing env a curr.junction.point
      | some (prev, e) =>
          if prev.stage ≠ curr.stage then bearing env a curr.junction.point
          else
            let weight := getWeight env e.raw
            if passed + weight ≥ kBearingDist then
              bearing env a
                (env.pointAtSegment e.raw.endJ.point e.raw.startJ.point
                  (kBearingDist - passed))
            else getReverseBearingAux env links a fuel prev (passed + weight)

/-- `Router::GetReverseBearing(u, links)`. -/
def getReverseBearing (env : Env) (links : List (Vertex × (Vertex × Edge)))
    (u : Vertex) : ℕ :=
  getReverseBearingAux env links u.junction.point (links.length + 1) u 0

/-!  ## `Router::Init` -/

/-- The router state established by a successful `Init`. -/
structure RouterState (G : Type) where
  points : List WayPoint
  positiveOffsetM : ℚ
  negativeOffsetM : ℚ
  pivots : List (List Point)
  sourceJunction : Junction
  targetJunction : Junction
  graph : G

/-- The intermediate way-points (`i` with `1 <= i`, `i + 1 < points.size()`). -/
def intermediatePoints (points : List WayPoint) : List WayPoint :=
  (points.drop 1).dropLast

/-- The pivot points gathered from one nearest-edge query: both endpoints
of every vicinity edge, in order. -/
def pivotsOfVicinity (vicinity : List (REdge × Junction)) : List Point :=
  vicinity.flatMap (fun v => [v.1.startJ.point, v.1.endJ.point])

/-- The pivot-collection loop of `Init`: one pivot list per intermediate
way-point; `none` models the `return false` on the first empty list. -/
def buildPivots {G : Type} (ops : GraphOps G) (graph : G) :
    List WayPoint → Option (List (List Point))
  | [] => some []
  | wp :: rest =>
      if (pivotsOfVicinity
          (ops.findClosestEdges graph wp.point kMaxRoadCandidates)).isEmpty then
        none
      else (buildPivots ops graph rest).map
        (pivotsOfVicinity
          (ops.findClosestEdges graph wp.point kMaxRoadCandidates) :: ·)

/-- The fake-edge injection of `Init` on the reset graph: query the
vicinity of the source junction, inject fakes around it, then query the
vicinity of the target junction on the updated graph and inject fakes
around it. -/
def initGraph {G : Type} (ops : GraphOps G) (graph0 : G)
    (points : List WayPoint) : G :=
  let sourceJunction : Junction := ⟨(points.headD defaultWP).point, 0⟩
  let sourceVicinity :=
    ops.findClosestEdges graph0 sourceJunction.point kMaxRoadCandidates
  let graph1 := ops.addFakeEdges graph0 sourceJunction sourceVicinity
  let targetJunction : Junction := ⟨(points.getLastD defaultWP).point, 0⟩
  let targetVicinity :=
    ops.findClosestEdges graph1 targetJunction.point kMaxRoadCandidates
  ops.addFakeEdges graph1 targetJunction targetVicinity

/-- `Router::Init`.  Returns `none` when the `CHECK(points.size() >= 2)`
precondition aborts; `some none` when `Init` returns `false` (an empty
intermediate pivot list); `some (some state)` on success.  On success the
pivot list of the final way-point (`{point}`) is appended, and fake edges
are injected around the source and target junctions (altitude 0). -/
def init {G : Type} (ops : GraphOps G) (graph : G)
    (points : List WayPoint) (positiveOffsetM negativeOffsetM : ℚ) :
    Option (Option (RouterState G)) :=
  if points.length < 2 then none
  else
    match buildPivots ops (ops.resetFakes graph) (intermediatePoints points) with
    | none => some none
    | some pvs =>
        some (some
          { points := points
            positiveOffsetM := positiveOffsetM
            negativeOffsetM := negativeOffsetM
            pivots := pvs ++ [[(points.getLastD defaultWP).point]]
            sourceJunction := ⟨(points.headD defaultWP).point, 0⟩
            targetJunction := ⟨(points.getLastD defaultWP).point, 0⟩
            graph := initGraph ops (ops.resetFakes graph) points })

/-!  ## Path-reconstruction helpers -/

/-- `Router::FindPrefixLengthToConsume`: count leading segments wholly
consumed by the remaining offset; a segment is consumed while
`2 * lengthM >= len`. -/
def findPrefixLengthToConsume (env : Env) :
    List (Point × Point) → ℚ → ℕ
  | [], _ => 0
  | (u, v) :: rest, lengthM =>
      if lengthM > 0 then
        let len := env.distanceOnEarth u v
        if 2 * lengthM < len then 0
        else 1 + findPrefixLengthToConsume env rest (lengthM - len)
      else 0

/-- The consecutive-prefix coverage sum of `Router::GetMatchingScore`: walk
the pairs while both endpoints lie on the segment `[u, v]` (within `1e-5`)
and the direction agrees (`dot >= -1e-5`), accumulating geodesic lengths;
stop at the first failure (`break`). -/
def matchingCov (env : Env) (u v : Point) : List (Point × Point) → ℚ
  | [] => 0
  | (s, t) :: rest =>
      if !(env.isPointOnSegmentEps s u v (1 / 100000)) ||
         !(env.isPointOnSegmentEps t u v (1 / 100000)) then 0
      else if dotProduct (psub v u) (psub t s) < -(1 / 100000) then 0
      else env.distanceOnEarth s t + matchingCov env u v rest

/-- `Router::GetMatchingScore(u, v, b, e)`: the covered fraction of the
candidate length, clamped to `[0, 1]` (`0` when the length is zero). -/
def getMatchingScore (env : Env) (u v : Point) (pairs : List (Point × Point)) : ℚ :=
  let len := env.distanceOnEarth u v
  let cov := matchingCov env u v pairs
  if len = 0 then 0 else clamp (cov / len) 0 1

/-- Insert a pair into a list sorted by the lexicographic pair order
(used to model `std::sort` in `GetCoverage`). -/
def insertPair (p : ℚ × ℚ) : List (ℚ × ℚ) → List (ℚ × ℚ)
  | [] => [p]
  | q :: rest =>
      if p.1 < q.1 ∨ (p.1 = q.1 ∧ p.2 ≤ q.2) then p :: q :: rest
      else q :: insertPair p rest

/-- Sort interval pairs lexicographically (`std::sort` on `pair<double,
double>`). -/
def sortPairs : List (ℚ × ℚ) → List (ℚ × ℚ)
  | [] => []
  | p :: rest => insertPair p (sortPairs rest)

/-- The interval-union summation of `Router::GetCoverage`: greedily absorb
intervals whose start is at most the running `last`, adding
`last - first` when a gap is found and starting the next group there. -/
def mergeGo (first last : ℚ) : List (ℚ × ℚ) → ℚ
  | [] => last - first
  | (c, d) :: rest =>
      if c ≤ last then mergeGo first (max last d) rest
      else (last - first) + mergeGo c d rest

/-- Total length of the union of the (sorted) intervals. -/
def mergeCovs : List (ℚ × ℚ) → ℚ
  | [] => 0
  | (a, b) :: rest => mergeGo a b rest

/-- The interval-collection loop of `Router::GetCoverage`: project each
search edge whose endpoints lie on the candidate segment (within `1e-5`)
and whose direction agrees (`dot >= -1e-5`) onto the candidate, clamping
the induced interval into `[0, 1]`. -/
def coverageIntervals (env : Env) (u v : Point) (edges : List Edge) :
    List (ℚ × ℚ) :=
  edges.filterMap (fun e =>
    if !(env.isPointOnSegmentEps e.u.junction.point u v (1 / 100000)) ||
       !(env.isPointOnSegmentEps e.v.junction.point u v (1 / 100000)) then none
    else if dotProduct (psub v u)
        (psub e.v.junction.point e.u.junction.point) < -(1 / 100000) then none
    else
      let sp := dotProduct (psub v u) (psub e.u.junction.point u) /
        squareLength u v
      let tp := dotProduct (psub v u) (psub e.v.junction.point u) /
        squareLength u v
      some (clamp (min sp tp) 0 1, clamp (max sp tp) 0 1))

/-- `Router::GetCoverage(u, v, b, e)`: collect the qualifying clamped
intervals, sort them and return the total length of their union; `0` for a
candidate shorter than `kLengthThresholdM = 1`. -/
def getCoverage (env : Env) (u v : Point) (edges : List Edge) : ℚ :=
  if env.distanceOnEarth u v < 1 then 0
  else mergeCovs (sortPairs (coverageIntervals env u v edges))

/-!  ## `Router::ReconstructPath` -/

/-- The skip predicate of `Router::ForStagePrefix`: a fake edge whose both
vertices are on the given stage. -/
def stagePrefixPred (stage : ℕ) (e : Edge) : Bool :=
  e.raw.isFake && (e.u.stage == stage) && (e.v.stage == stage)

/-- `my::EraseIf(edges, mem_fn(&Edge::IsSpecial))`. -/
def stripSpecial (edges : List Edge) : List Edge :=
  edges.filter (fun e => !e.isSpecial)

/-- Consume the positive offset from the front
(`FindPrefixLengthToConsume` over `ToPair`, then erase the prefix). -/
def trimFront (env : Env) (positiveOffsetM : ℚ) (edges : List Edge) : List Edge :=
  edges.drop (findPrefixLengthToConsume env (edges.map Edge.toPair) positiveOffsetM)

/-- Consume the negative offset from the back
(`FindPrefixLengthToConsume` over reversed `ToPairRev`, then erase the
suffix). -/
def trimBack (env : Env) (negativeOffsetM : ℚ) (edges : List Edge) : List Edge :=
  let n := findPrefixLengthToConsume env (edges.reverse.map Edge.toPairRev)
    negativeOffsetM
  edges.take (edges.length - n)

/-- The offset-trimmed, special-free edge sequence of `ReconstructPath`
(steps 1–3 of spec §4.6). -/
def stripAndTrim (env : Env) (positiveOffsetM negativeOffsetM : ℚ)
    (edges : List Edge) : List Edge :=
  trimBack env negativeOffsetM (trimFront env positiveOffsetM (stripSpecial edges))

/-- The ingoing candidate list for front reattachment: `ForEachNonFakeEdge
(e.u, false, waypoints[0].lfrcnp, fn)`, i.e. the restricted enumeration
with fake edges dropped.  Returns the updated ingoing cache. -/
def frontCandidates {G : Type} (env : Env) (ops : GraphOps G) (graph : G)
    (icache : Caches) (lfrcnp : ℤ) (u : Vertex) : List REdge × Caches :=
  let fetched := getIngoingEdges ops graph icache u.junction
  (fetched.1.filter (fun e => passesRestriction env e lfrcnp && !e.isFake),
    fetched.2)

/-- The outgoing candidate list for back reattachment. -/
def backCandidates {G : Type} (env : Env) (ops : GraphOps G) (graph : G)
    (ocache : Caches) (lfrcnp : ℤ) (u : Vertex) : List REdge × Caches :=
  let fetched := getOutgoingEdges ops graph ocache u.junction
  (fetched.1.filter (fun e => passesRestriction env e lfrcnp && !e.isFake),
    fetched.2)

/-- The best-candidate fold shared by both reattachment passes: track the
strictly greatest score seen (initially `-1`), storing `store cand`. -/
def bestCandidate (score : REdge → ℚ) (store : REdge → REdge)
    (cands : List REdge) : ℚ × REdge :=
  cands.foldl
    (fun best c => if score c > best.1 then (score c, store c) else best)
    (-1, defaultREdge)

/-- Front real-edge reattachment (`ForStagePrefix` at stage `0` feeding
`ForEachNonFakeEdge` over ingoing edges): the matching score of a candidate
`edge` is computed against the all-fake stage-0 prefix, walked backwards
with reversed pairs, from `(edge.end, edge.start)`; the stored edge is
`edge.GetReverseEdge()`.  Returns `(-1, default)` when the stage prefix is
not followed by a non-fake edge. -/
def frontBest {G : Type} (env : Env) (ops : GraphOps G) (graph : G)
    (icache : Caches) (points : List WayPoint) (edges : List Edge) :
    (ℚ × REdge) × Caches :=
  let pre := edges.takeWhile (stagePrefixPred 0)
  match edges.dropWhile (stagePrefixPred 0) with
  | [] => ((-1, defaultREdge), icache)
  | e :: _ =>
      if e.raw.isFake then ((-1, defaultREdge), icache)
      else
        let fetched := frontCandidates env ops graph icache
          (points.headD defaultWP).lfrcnp e.u
        (bestCandidate
          (fun edge => getMatchingScore env edge.endJ.point edge.startJ.point
            (pre.reverse.map Edge.toPairRev))
          REdge.reverse fetched.1, fetched.2)

/-- Back real-edge reattachment (`ForStagePrefix` over the reversed edges
at stage `points.size() - 2` feeding `ForEachNonFakeEdge` over outgoing
edges of `e.v`): the matching score is computed against the all-fake
final-stage suffix in forward order from `(edge.start, edge.end)`; the
candidate itself is stored. -/
def backBest {G : Type} (env : Env) (ops : GraphOps G) (graph : G)
    (ocache : Caches) (points : List WayPoint) (edges : List Edge) :
    (ℚ × REdge) × Caches :=
  let stage := points.length - 2
  let rev := edges.reverse
  let pre := rev.takeWhile (stagePrefixPred stage)
  match rev.dropWhile (stagePrefixPred stage) with
  | [] => ((-1, defaultREdge), ocache)
  | e :: _ =>
      if e.raw.isFake then ((-1, defaultREdge), ocache)
      else
        let fetched := backCandidates env ops graph ocache
          (points.getD stage defaultWP).lfrcnp e.v
        (bestCandidate
          (fun edge => getMatchingScore env edge.startJ.point edge.endJ.point
            (pre.reverse.map Edge.toPair))
          id fetched.1, fetched.2)

/-- The non-fake raw edges of the trimmed sequence, in order (the loop
filling `path` before reattachment). -/
def basePath (edges : List Edge) : List REdge :=
  (edges.filter (fun e => !e.raw.isFake)).map Edge.raw

/-- `Router::ForEachNonFakeClosestEdge(u, restriction, fn)`: the non-fake
nearest edges at the vertex's junction that pass the restriction. -/
def closestNonFake {G : Type} (env : Env) (ops : GraphOps G) (graph : G)
    (lfrcnp : ℤ) (u : Vertex) : List REdge :=
  ((ops.findClosestEdges graph u.junction.point kMaxRoadCandidates).map (·.1)).filter
    (fun e => !e.isFake && passesRestriction env e lfrcnp)

/-- `Router::FindSingleEdgeApproximation(edges, path)`: among the non-fake
nearest edges around every search-edge endpoint, keep those covering at
least `kThreshold = 0.8` of their length, maximising `weight * fraction`
(ties resolved to the latest candidate); accept the best iff its weighted
coverage reaches `kCoverageThreshold = 0.5` of the summed fake weights. -/
def findSingleEdgeApproximation {G : Type} (env : Env) (ops : GraphOps G)
    (graph : G) (points : List WayPoint) (edges : List Edge) : List REdge :=
  let expectedLength := edges.foldl (fun acc e => acc + getWeight env e.raw) 0
  if expectedLength < kEps then []
  else
    let cands := edges.flatMap (fun e =>
      closestNonFake env ops graph (points.getD e.u.stage defaultWP).lfrcnp e.u ++
      closestNonFake env ops graph (points.getD e.u.stage defaultWP).lfrcnp e.v)
    let best := cands.foldl
      (fun best c =>
        let weight := getWeight env c
        let fraction := getCoverage env c.startJ.point c.endJ.point edges
        let coverage := weight * fraction
        if fraction ≥ 8 / 10 ∧ coverage ≥ best.1 then (coverage, c) else best)
      (-1, defaultREdge)
    if best.1 ≥ expectedLength * (1 / 2) then [best.2] else []

/-- The front-insertion guard of `ReconstructPath`: prepend the reattached
edge iff its score reaches `kFakeCoverageThreshold = 0.5`, the path is
non-empty and its front differs from the candidate. -/
def attachFront (fr : ℚ × REdge) (path : List REdge) : List REdge :=
  if fr.1 ≥ 1 / 2 ∧ path ≠ [] ∧ path.head? ≠ some fr.2 then fr.2 :: path
  else path

/-- The back-insertion guard of `ReconstructPath`: append the reattached
edge iff its score reaches `kFakeCoverageThreshold = 0.5`, the path is
non-empty and its back differs from the candidate. -/
def attachBack (bk : ℚ × REdge) (path : List REdge) : List REdge :=
  if bk.1 ≥ 1 / 2 ∧ path ≠ [] ∧ path.getLast? ≠ some bk.2 then path ++ [bk.2]
  else path

/-- The path computed by `Router::ReconstructPath` (the function fills
`path` and finally returns `!path.empty()`; this is the fill).  Steps:
strip specials, trim offsets, compute both reattachment candidates, emit
the non-fake raws, prepend/append the reattached edges under the guards,
and fall back to the single-edge approximation when the result is empty. -/
def reconstructCore {G : Type} (env : Env) (ops : GraphOps G) (graph : G)
    (points : List WayPoint) (positiveOffsetM negativeOffsetM : ℚ)
    (ocache icache : Caches) (edges0 : List Edge) : List REdge :=
  let edges := stripAndTrim env positiveOffsetM negativeOffsetM edges0
  let frontRes := frontBest env ops graph icache points edges
  let backRes := backBest env ops graph ocache points edges
  let path2 := attachBack backRes.1 (attachFront frontRes.1 (basePath edges))
  if path2 = [] then findSingleEdgeApproximation env ops graph points edges
  else path2

/-- `Router::ReconstructPath(edges, path)`: fill `path` and return
`!path.empty()`. -/
def reconstructPath {G : Type} (env : Env) (ops : GraphOps G) (graph : G)
    (points : List WayPoint) (positiveOffsetM negativeOffsetM : ℚ)
    (ocache icache : Caches) (edges0 : List Edge) : Bool × List REdge :=
  let path := reconstructCore env ops graph points positiveOffsetM
    negativeOffsetM ocache icache edges0
  (!path.isEmpty, path)

/-!  ## `Router::FindPath` -/

/-- Follow the back-links from `cur` up to the source `s`, collecting the
traversed search edges in pop order (the source then reverses the list).
A missing link would make the source loop on garbage; the model carries
fuel and returns `none` if it is exhausted or a link is missing. -/
def backtrack (links : List (Vertex × (Vertex × Edge))) (s : Vertex) :
    ℕ → Vertex → Option (List Edge)
  | 0, cur => if cur = s then some [] else none
  | fuel + 1, cur =>
      if cur = s then some []
      else
        match lookupLink links cur with
        | none => none
        | some (prev, e) => (backtrack links s fuel prev).map (e :: ·)

/-- The expansion of one popped non-final, non-pruned vertex `u` with score
`su`: the bearing-check special edge, the stage-advance special edge and
the restricted outgoing graph edges, each pushed through `pushVertex` in
source order.  Returns the updated search state and outgoing cache. -/
def expandVertex {G : Type} (env : Env) (ops : GraphOps G)
    (rs : RouterState G) (piS : ℚ) (st : SearchCtx) (ocache icache : Caches)
    (su : Score ℚ) (u : Vertex) : SearchCtx × Caches × Caches :=
  let numPoints := rs.points.length
  let stage := u.stage
  let wp := rs.points.getD stage defaultWP
  let distanceToNextPointM := wp.distanceToNextPointM
  let piU := getPotential env rs.pivots numPoints u
  let ud := su.distance + piS - piU
  -- Distance-excess pruning.
  if ud > u.stageStartDistance + distanceToNextPointM +
      max kDistanceAccuracyM distanceToNextPointM then (st, ocache, icache)
  else
    -- Bearing-check transition.
    let st1 :=
      if nearNextStage rs.pivots u piU && !u.bearingChecked then
        let v := { u with bearingChecked := true }
        let sv :=
          if u.junction ≠ u.stageStart then
            su.addBearingPenalty env.degToRad wp.bearing
              (bearing env u.stageStart.point u.junction.point)
          else su
        pushVertex st u v sv (Edge.makeSpecial u v)
      else st
    -- Stage-advance transition.
    let st2 :=
      if mayMoveToNextStage rs.pivots u piU then
        let v : Vertex := ⟨u.junction, u.junction, ud, stage + 1, false⟩
        let piV := getPotential env rs.pivots numPoints v
        let sv := (su.addDistance (max (piV - piU) 0)).addIntermediateErrorPenalty
          (env.distanceOnEarth v.junction.point
            (rs.points.getD v.stage defaultWP).point)
        let sv :=
          if isFinalVertex numPoints v then
            sv.addBearingPenalty env.degToRad
              (rs.points.getLastD defaultWP).bearing
              (getReverseBearing env st1.links u)
          else sv
        pushVertex st1 u v sv (Edge.makeSpecial u v)
      else st1
    -- Graph-edge transitions.
    let enumerated := forEachEdgeList env ops rs.graph ocache icache u true wp.lfrcnp
    let st3 := enumerated.1.foldl (fun st edge =>
      let v0 := { u with junction := edge.endJ }
      let piV := getPotential env rs.pivots numPoints v0
      let w := getWeight env edge
      let sv0 := su.addDistance (max (w + piV - piU) 0)
      let vd := ud + w
      let checked :=
        if needToCheckBearing numPoints v0 vd then
          let delta := vd - v0.stageStartDistance - kBearingDist
          let p := env.pointAtSegment edge.startJ.point edge.endJ.point delta
          let sv' :=
            if v0.stageStart.point ≠ p then
              sv0.addBearingPenalty env.degToRad wp.bearing
                (bearing env v0.stageStart.point p)
            else sv0
          ({ v0 with bearingChecked := true }, sv')
        else (v0, sv0)
      let v := checked.1
      let sv1 := checked.2
      let sv2 :=
        if vd > v.stageStartDistance + distanceToNextPointM then
          sv1.addDistanceErrorPenalty
            (min (vd - v.stageStartDistance - distanceToNextPointM) w)
        else sv1
      let sv3 := if edge.isFake then sv2.addFakePenalty w edge.partOfReal else sv2
      pushVertex st u v sv3 (Edge.makeNormal u v edge)) st2
    (st3, enumerated.2.1, enumerated.2.2)

/-- The main loop of `Router::FindPath`: pop a minimal state, discard stale
entries, return through `ReconstructPath` at a final vertex, prune
overlong stages, otherwise expand.  `path0` is the content of the caller's
output vector, untouched on the `return false` path.  `none` models a
computation that did not finish within the fuel. -/
def findPathLoop {G : Type} (env : Env) (ops : GraphOps G)
    (rs : RouterState G) (s : Vertex) (piS : ℚ) (path0 : List REdge) :
    ℕ → SearchCtx → Caches → Caches → Option (Bool × List REdge)
  | 0, _, _, _ => none
  | fuel + 1, st, ocache, icache =>
      match popMin st.queue with
      | none => some (false, path0)
      | some ((su, u), queue') =>
          if lookupScore st.scores u ≠ some su then
            findPathLoop env ops rs s piS path0 fuel
              ⟨queue', st.scores, st.links⟩ ocache icache
          else if isFinalVertex rs.points.length u then
            match backtrack st.links s (st.links.length + 1) u with
            | none => none
            | some edges =>
                some (reconstructPath env ops rs.graph rs.points
                  rs.positiveOffsetM rs.negativeOffsetM ocache icache
                  edges.reverse)
          else
            let ex := expandVertex env ops rs piS
              ⟨queue', st.scores, st.links⟩ ocache icache su u
            findPathLoop env ops rs s piS path0 fuel ex.1 ex.2.1 ex.2.2

/-- `Router::FindPath(path)`: seed the search at
`s = (source, source, 0, 0, false)` with a zero score and run the loop. -/
def findPath {G : Type} (env : Env) (ops : GraphOps G) (rs : RouterState G)
    (ocache icache : Caches) (fuel : ℕ) (path0 : List REdge) :
    Option (Bool × List REdge) :=
  let s : Vertex := ⟨rs.sourceJunction, rs.sourceJunction, 0, 0, false⟩
  let piS := getPotential env rs.pivots rs.points.length s
  findPathLoop env ops rs s piS path0 fuel
    ⟨[(Score.init, s)], [(s, Score.init)], []⟩ ocache icache

/-- `Router::Go(points, positiveOffsetM, negativeOffsetM, path)`: `Init`
then `FindPath`; a failed `Init` returns `false` leaving the caller's
`path` vector untouched.  `ocache`/`icache` are the router's memoization
maps (empty on a fresh router). -/
def go {G : Type} (env : Env) (ops : GraphOps G) (graph : G)
    (points : List WayPoint) (positiveOffsetM negativeOffsetM : ℚ)
    (ocache icache : Caches) (fuel : ℕ) (path0 : List REdge) :
    Option (Bool × List REdge) :=
  match init ops graph points positiveOffsetM negativeOffsetM with
  | none => none
  | some none => some (false, path0)
  | some (some rs) => findPath env ops rs ocache icache fuel path0

/-!  ## Concrete instantiations

Small concrete environments, graphs and inputs used to run the embedded
router on explicit data. -/

/-- A degenerate geometry: constant unit distance, trivial interpolation,
every point on every segment, zero angles, road class `0`. -/
def wEnv : Env :=
  ⟨fun _ _ => 1, fun a _ _ => a, fun _ _ => 0, fun _ _ _ _ => true,
    fun _ => 0, fun d => d⟩

/-- The empty road graph over the unit state. -/
def wOps : GraphOps Unit :=
  ⟨fun _ _ _ => [], fun g => g, fun g _ _ => g, fun _ _ => [],
    fun _ _ => [], fun _ _ => [], fun _ _ => []⟩

/-- Junction `A (0, 0)`. -/
def cexJA : Junction := ⟨(0, 0), 0⟩
/-- Junction `B (1, 0)`. -/
def cexJB : Junction := ⟨(1, 0), 0⟩
/-- Junction `C (2, 0)`. -/
def cexJC : Junction := ⟨(2, 0), 0⟩
/-- A stage-0 search vertex at `A`. -/
def cexVA : Vertex := ⟨cexJA, cexJA, 0, 0, false⟩
/-- A stage-0 search vertex at `B`. -/
def cexVB : Vertex := ⟨cexJB, cexJA, 0, 0, false⟩
/-- A stage-0 search vertex at `C`. -/
def cexVC : Vertex := ⟨cexJC, cexJA, 0, 0, false⟩
/-- A fake raw edge `A → B`. -/
def cexFakeRaw : REdge := ⟨true, false, 0, cexJA, cexJB⟩
/-- A real raw edge `B → C`. -/
def cexRealRaw : REdge := ⟨false, false, 1, cexJB, cexJC⟩
/-- A real raw edge `A → B`, reachable only through the nearest-edge
query. -/
def cexE : REdge := ⟨false, false, 2, cexJA, cexJB⟩
/-- The fake stage-0 search edge `A → B`. -/
def cexF1 : Edge := ⟨cexVA, cexVB, cexFakeRaw, false⟩
/-- The real stage-0 search edge `B → C`. -/
def cexR1 : Edge := ⟨cexVB, cexVC, cexRealRaw, false⟩
/-- Two way-points for the reattachment scenario. -/
def cexPts : List WayPoint := [⟨(0, 0), 2, 0, 0⟩, ⟨(2, 0), 0, 0, 0⟩]
/-- A graph whose nearest-edge query at `B` returns the real edge `cexE`
while the regular/fake edge enumerations are empty. -/
def cexOps : GraphOps Unit :=
  ⟨fun _ p _ => if p = (1, 0) then [(cexE, cexJB)] else [], fun g => g,
    fun g _ _ => g, fun _ _ => [], fun _ _ => [], fun _ _ => [],
    fun _ _ => []⟩

/-- Two way-points on the empty graph. -/
def c1Pts2 : List WayPoint := [⟨(0, 0), 1, 0, 0⟩, ⟨(1, 0), 1, 0, 0⟩]
/-- Three way-points on the empty graph (the intermediate one has no
nearby edges, so `Init` fails). -/
def c1Pts3 : List WayPoint :=
  [⟨(0, 0), 1, 0, 0⟩, ⟨(1, 0), 1, 0, 0⟩, ⟨(2, 0), 1, 0, 0⟩]

/-- The router state `Init` derives from `c1Pts2` on the empty graph. -/
def c1RS : RouterState Unit :=
  ⟨c1Pts2, 0, 0, [[(1, 0)]], ⟨(0, 0), 0⟩, ⟨(1, 0), 0⟩, ()⟩

/-- The source vertex of the `c1Pts2` search. -/
def c1S : Vertex := ⟨⟨(0, 0), 0⟩, ⟨(0, 0), 0⟩, 0, 0, false⟩

/-!  # Theorems -/

/-- `Score::operator<` is the lexicographic order on
`(GetScore(), m_distance)`; the final `m_penalty` tier can never decide
(equal sums with equal distances force equal penalties). -/
theorem score_lt_iff (a b : Score α) :
    Score.lt a b ↔
      (a.getScore < b.getScore ∨
        (a.getScore = b.getScore ∧ a.distance < b.distance)) := by
  unfold Score.lt
  constructor
  · rintro (⟨_, h2⟩ | ⟨h1, _, h3⟩ | ⟨h1, h2, h3⟩)
    · exact Or.inl h2
    · exact Or.inr ⟨h1, h3⟩
    · exfalso
      have hp : a.penalty = b.penalty := by
        have := h1
        unfold Score.getScore at this
        rw [h2] at this
        exact add_left_cancel this
      rw [hp] at h3
      exact lt_irrefl _ h3
  · rintro (h | ⟨h1, h2⟩)
    · exact Or.inl ⟨ne_of_lt h, h⟩
    · exact Or.inr (Or.inl ⟨h1, ne_of_lt h2, h2⟩)

/-- Scores with equal sum and equal distance are equal. -/
theorem score_eq_of_getScore_eq_distance_eq {a b : Score α}
    (h1 : a.getScore = b.getScore) (h2 : a.distance = b.distance) : a = b := by
  obtain ⟨ad, ap⟩ := a
  obtain ⟨bd, bp⟩ := b
  unfold Score.getScore at h1
  simp only at h1 h2
  subst h2
  simp only [Score.mk.injEq, true_and]
  exact add_left_cancel h1

/-- C4: the comparison on `Score` is a strict total order that compares
`distance + penalty` first, then `distance`, then `penalty`: for any two
scores exactly one of less-than, equal, greater-than holds, the order is
transitive, and a score with a smaller `distance + penalty` sum always
compares smaller. -/
theorem score_lt_strict_total_order :
    (∀ a b : Score α,
        (Score.lt a b ∧ a ≠ b ∧ ¬Score.lt b a) ∨
        (¬Score.lt a b ∧ a = b ∧ ¬Score.lt b a) ∨
        (¬Score.lt a b ∧ a ≠ b ∧ Score.lt b a)) ∧
    (∀ a b c : Score α, Score.lt a b → Score.lt b c → Score.lt a c) ∧
    (∀ a b : Score α, a.getScore < b.getScore → Score.lt a b) := by
  refine ⟨?_, ?_, ?_⟩
  · intro a b
    rcases lt_trichotomy a.getScore b.getScore with h | h | h
    · refine Or.inl ⟨(score_lt_iff a b).mpr (Or.inl h), ?_, ?_⟩
      · rintro rfl; exact lt_irrefl _ h
      · rw [score_lt_iff]
        rintro (h' | ⟨h', _⟩)
        · exact absurd h (not_lt_of_lt h')
        · exact absurd h' (ne_of_gt h)
    · rcases lt_trichotomy a.distance b.distance with hd | hd | hd
      · refine Or.inl ⟨(score_lt_iff a b).mpr (Or.inr ⟨h, hd⟩), ?_, ?_⟩
        · rintro rfl; exact lt_irrefl _ hd
        · rw [score_lt_iff]
          rintro (h' | ⟨_, h'⟩)
          · exact absurd h (ne_of_gt h')
          · exact absurd hd (not_lt_of_lt h')
      · refine Or.inr (Or.inl ⟨?_, score_eq_of_getScore_eq_distance_eq h hd, ?_⟩)
        · rw [score_lt_iff]
          rintro (h' | ⟨_, h'⟩)
          · exact absurd h (ne_of_lt h')
          · exact absurd hd (ne_of_lt h')
        · rw [score_lt_iff]
          rintro (h' | ⟨_, h'⟩)
          · exact absurd h (ne_of_gt h')
          · exact absurd hd (ne_of_gt h')
      · refine Or.inr (Or.inr ⟨?_, ?_, (score_lt_iff b a).mpr (Or.inr ⟨h.symm, hd⟩)⟩)
        · rw [score_lt_iff]
          rintro (h' | ⟨_, h'⟩)
          · exact absurd h (ne_of_lt h')
          · exact absurd hd (not_lt_of_lt h')
        · rintro rfl; exact lt_irrefl _ hd
    · refine Or.inr (Or.inr ⟨?_, ?_, (score_lt_iff b a).mpr (Or.inl h)⟩)
      · rw [score_lt_iff]
        rintro (h' | ⟨h', _⟩)
        · exact absurd h (not_lt_of_lt h')
        · exact absurd h' (ne_of_gt h)
      · rintro rfl; exact lt_irrefl _ h
  · intro a b c hab hbc
    rw [score_lt_iff] at hab hbc ⊢
    rcases hab with h | ⟨h1, h2⟩ <;> rcases hbc with h' | ⟨h1', h2'⟩
    · exact Or.inl (lt_trans h h')
    · exact Or.inl (h1' ▸ h)
    · exact Or.inl (h1 ▸ h')
    · exact Or.inr ⟨h1.trans h1', lt_trans h2 h2'⟩
  · intro a b h
    exact (score_lt_iff a b).mpr (Or.inl h)

/-- Witness for C4: instantiating the transitivity part at concrete
rational scores. -/
theorem score_lt_strict_total_order_witness :
    Score.lt (⟨1, 0⟩ : Score ℚ) ⟨2, 5⟩ :=
  score_lt_strict_total_order.2.1 ⟨1, 0⟩ ⟨2, 0⟩ ⟨2, 5⟩
    (by norm_num [Score.lt, Score.getScore])
    (by norm_num [Score.lt, Score.getScore])

/-- C3: for bearing buckets `expected` and `actual` in `[0, 256)`,
`AddBearingPenalty` increases the penalty by exactly
`5 * (min(|expected - actual|, 256 - |expected - actual|) * (360/256)`
converted to radians`) * 25` and leaves the distance component unchanged
(degree → radian conversion instantiated exactly as `d * π / 180`). -/
theorem addBearingPenalty_exact (s : Score ℝ) (expected actual : ℤ)
    (_ : 0 ≤ expected) (_ : expected < 256) (_ : 0 ≤ actual) (_ : actual < 256) :
    (s.addBearingPenalty (fun d => (d : ℝ) * Real.pi / 180) expected actual).distance
        = s.distance ∧
    (s.addBearingPenalty (fun d => (d : ℝ) * Real.pi / 180) expected actual).penalty
        = s.penalty +
          5 * (((min |expected - actual| (256 - |expected - actual|) : ℤ) : ℝ) *
            (360 / 256) * Real.pi / 180) * 25 := by
  unfold Score.addBearingPenalty
  refine ⟨rfl, ?_⟩
  simp only [kNumBuckets, kAnglesInBucket]
  push_cast
  ring

/-- Witness for C3 at `expected = 0`, `actual = 64`. -/
theorem addBearingPenalty_exact_witness :
    (0 : ℤ) ≤ 0 ∧ (0 : ℤ) < 256 ∧ (0 : ℤ) ≤ 64 ∧ (64 : ℤ) < 256 ∧
    ((Score.addBearingPenalty (fun d => (d : ℝ) * Real.pi / 180)
        ⟨0, 0⟩ 0 64).distance = 0 ∧
      (Score.addBearingPenalty (fun d => (d : ℝ) * Real.pi / 180)
        ⟨0, 0⟩ 0 64).penalty
        = 0 + 5 * (((min |(0 : ℤ) - 64| (256 - |(0 : ℤ) - 64|) : ℤ) : ℝ) *
            (360 / 256) * Real.pi / 180) * 25) :=
  ⟨by decide, by decide, by decide, by decide,
    addBearingPenalty_exact ⟨0, 0⟩ 0 64 (by decide) (by decide) (by decide)
      (by decide)⟩

/-- C8: for every pair of points (every externally computed compass
angle), `Bearing` returns an integer bucket in `[0, 255]`; in particular
the `[0, 256)` range assertions of `AddBearingPenalty` hold for bearings
computed by the program. -/
theorem bearing_in_range (env : Env) (a b : Point) :
    bearing env a b ≤ 255 ∧
      0 ≤ (bearing env a b : ℤ) ∧ (bearing env a b : ℤ) < kNumBuckets := by
  have hb : ∀ x : ℚ, bearingBucket x ≤ 255 := by
    intro x
    unfold bearingBucket clamp
    have h1 : max (0 : ℚ) (min (x / kAnglesInBucket) 255) ≤ 255 :=
      max_le (by norm_num) (min_le_right _ _)
    have h2 : (max (0 : ℚ) (min (x / kAnglesInBucket) 255)).floor ≤ (255 : ℤ) := by
      have := Int.floor_le_floor h1
      simpa using this
    omega
  refine ⟨hb _, by positivity, ?_⟩
  have := hb (env.angleDeg a b)
  unfold bearing at *
  unfold kNumBuckets
  omega

/-- C5: the road-class filter accepts an edge iff it is fake, or it is real
and its functional road class is at most `lfrcnp + 3`; and the edges the
search's `ForEachEdge` hands to its callback are exactly the enumerated
edges that the filter accepts. -/
theorem forEachEdge_restriction {G : Type} (env : Env) (ops : GraphOps G)
    (graph : G) (ocache icache : Caches) (u : Vertex) (outgoing : Bool)
    (r : ℤ) (e : REdge) :
    (passesRestriction env e r = true ↔
      (e.isFake = true ∨ (e.isFake = false ∧ env.frc e.featureId ≤ r + 3))) ∧
    (e ∈ (forEachEdgeList env ops graph ocache icache u outgoing r).1 ↔
      (e ∈ (if outgoing then (getOutgoingEdges ops graph ocache u.junction).1
            else (getIngoingEdges ops graph icache u.junction).1) ∧
        passesRestriction env e r = true)) := by
  constructor
  · unfold passesRestriction
    by_cases hf : e.isFake = true
    · simp [hf]
    · have hf' : e.isFake = false := by
        cases h : e.isFake
        · rfl
        · exact absurd h hf
      simp [hf']
  · unfold forEachEdgeList
    cases outgoing <;> simp [List.mem_filter]

/-- C6: `pushVertex(u, v, sv, e)` inserts exactly when `u ≠ v` and either
`v` has no recorded score or the recorded total exceeds `sv`'s total by
more than `10⁻⁹`; on insertion `scores[v]` becomes `sv` and `links[v]`
becomes `(u, e)` (and the state is the recorded one), otherwise the state
is unchanged. -/
theorem pushVertex_spec (st : SearchCtx) (u v : Vertex) (sv : Score ℚ)
    (e : Edge) :
    ((u ≠ v ∧ (lookupScore st.scores v = none ∨
        ∃ s, lookupScore st.scores v = some s ∧
          s.getScore > sv.getScore + 1 / 1000000000)) →
      pushVertex st u v sv e =
        ⟨(sv, v) :: st.queue, (v, sv) :: st.scores, (v, (u, e)) :: st.links⟩ ∧
      lookupScore (pushVertex st u v sv e).scores v = some sv ∧
      lookupLink (pushVertex st u v sv e).links v = some (u, e)) ∧
    (¬(u ≠ v ∧ (lookupScore st.scores v = none ∨
        ∃ s, lookupScore st.scores v = some s ∧
          s.getScore > sv.getScore + 1 / 1000000000)) →
      pushVertex st u v sv e = st) ∧
    ((u ≠ v ∧ (lookupScore st.scores v = none ∨
        ∃ s, lookupScore st.scores v = some s ∧
          s.getScore > sv.getScore + 1 / 1000000000)) ↔
      pushVertex st u v sv e ≠ st) := by
  have hcond : ((lookupScore st.scores v = none ∨
      ((lookupScore st.scores v).getD Score.init).getScore >
        sv.getScore + kEps) ∧ u ≠ v) ↔
      (u ≠ v ∧ (lookupScore st.scores v = none ∨
        ∃ s, lookupScore st.scores v = some s ∧
          s.getScore > sv.getScore + 1 / 1000000000)) := by
    unfold kEps
    cases h : lookupScore st.scores v with
    | none => simp [and_comm]
    | some s => simp [and_comm]
  by_cases hc : ((lookupScore st.scores v = none ∨
      ((lookupScore st.scores v).getD Score.init).getScore >
        sv.getScore + kEps) ∧ u ≠ v)
  · have hpush : pushVertex st u v sv e =
        ⟨(sv, v) :: st.queue, (v, sv) :: st.scores, (v, (u, e)) :: st.links⟩ := by
      unfold pushVertex
      rw [if_pos hc]
    have hne : pushVertex st u v sv e ≠ st := by
      rw [hpush]
      intro heq
      have := congrArg (fun c => c.queue.length) heq
      simp at this
    refine ⟨fun _ => ⟨hpush, ?_, ?_⟩, fun hn => absurd (hcond.mp hc) hn,
      ⟨fun _ => hne, fun _ => hcond.mp hc⟩⟩
    · rw [hpush]
      simp [lookupScore]
    · rw [hpush]
      simp [lookupLink]
  · have hpush : pushVertex st u v sv e = st := by
      unfold pushVertex
      rw [if_neg hc]
    refine ⟨fun h => absurd (hcond.mpr h) hc, fun _ => hpush,
      ⟨fun h => absurd (hcond.mpr h) hc, fun hne => absurd hpush hne⟩⟩

/-- Witness for C6: inserting into an empty relaxation state. -/
theorem pushVertex_spec_witness :
    pushVertex ⟨[], [], []⟩ ⟨⟨(0, 0), 0⟩, ⟨(0, 0), 0⟩, 0, 0, false⟩
        ⟨⟨(1, 0), 0⟩, ⟨(0, 0), 0⟩, 0, 0, false⟩ ⟨1, 2⟩
        (Edge.makeSpecial ⟨⟨(0, 0), 0⟩, ⟨(0, 0), 0⟩, 0, 0, false⟩
          ⟨⟨(1, 0), 0⟩, ⟨(0, 0), 0⟩, 0, 0, false⟩) =
      ⟨[(⟨1, 2⟩, ⟨⟨(1, 0), 0⟩, ⟨(0, 0), 0⟩, 0, 0, false⟩)],
        [(⟨⟨(1, 0), 0⟩, ⟨(0, 0), 0⟩, 0, 0, false⟩, ⟨1, 2⟩)],
        [(⟨⟨(1, 0), 0⟩, ⟨(0, 0), 0⟩, 0, 0, false⟩,
          (⟨⟨(0, 0), 0⟩, ⟨(0, 0), 0⟩, 0, 0, false⟩,
            Edge.makeSpecial ⟨⟨(0, 0), 0⟩, ⟨(0, 0), 0⟩, 0, 0, false⟩
              ⟨⟨(1, 0), 0⟩, ⟨(0, 0), 0⟩, 0, 0, false⟩))]⟩ :=
  ((pushVertex_spec ⟨[], [], []⟩ _ _ _ _).1
    ⟨by norm_num [Vertex.mk.injEq, Junction.mk.injEq, Prod.ext_iff],
      Or.inl rfl⟩).1

/-- The pivot list gathered from a vicinity is empty iff the vicinity is
empty (each vicinity edge contributes both of its endpoints). -/
theorem pivotsOfVicinity_eq_nil_iff (vicinity : List (REdge × Junction)) :
    pivotsOfVicinity vicinity = [] ↔ vicinity = [] := by
  cases vicinity with
  | nil => simp [pivotsOfVicinity]
  | cons v rest => simp [pivotsOfVicinity]

/-- The pivot-collection loop fails exactly when some processed way-point
has an empty pivot list. -/
theorem buildPivots_eq_none_iff {G : Type} (ops : GraphOps G) (graph : G)
    (l : List WayPoint) :
    buildPivots ops graph l = none ↔
      ∃ wp ∈ l, pivotsOfVicinity
        (ops.findClosestEdges graph wp.point kMaxRoadCandidates) = [] := by
  induction l with
  | nil => simp [buildPivots]
  | cons wp rest ih =>
      unfold buildPivots
      cases h : (pivotsOfVicinity
          (ops.findClosestEdges graph wp.point kMaxRoadCandidates)).isEmpty with
      | true =>
          simp only [h, if_true]
          constructor
          · intro _
            exact ⟨wp, List.mem_cons_self wp rest, List.isEmpty_iff.mp h⟩
          · intro _
            trivial
      | false =>
          simp only [h, Bool.false_eq_true, if_false, Option.map_eq_none']
          rw [ih]
          constructor
          · rintro ⟨wp', hmem, hempty⟩
            exact ⟨wp', List.mem_cons_of_mem _ hmem, hempty⟩
          · rintro ⟨wp', hmem, hempty⟩
            rcases List.mem_cons.mp hmem with rfl | hmem'
            · rw [List.isEmpty_iff.mpr hempty] at h
              exact absurd h (by simp)
            · exact ⟨wp', hmem', hempty⟩

/-- A successful pivot collection yields one non-empty list per processed
way-point. -/
theorem buildPivots_eq_some {G : Type} (ops : GraphOps G) (graph : G)
    (l : List WayPoint) (pvs : List (List Point))
    (h : buildPivots ops graph l = some pvs) :
    pvs.length = l.length ∧ ∀ ps ∈ pvs, ps ≠ [] := by
  induction l generalizing pvs with
  | nil =>
      simp [buildPivots] at h
      subst h
      simp
  | cons wp rest ih =>
      unfold buildPivots at h
      cases hset : (pivotsOfVicinity
          (ops.findClosestEdges graph wp.point kMaxRoadCandidates)).isEmpty with
      | true => rw [hset] at h; simp at h
      | false =>
          rw [hset] at h
          simp only [Bool.false_eq_true, if_false] at h
          cases hrest : buildPivots ops graph rest with
          | none => rw [hrest] at h; simp at h
          | some pvs' =>
              rw [hrest] at h
              simp only [Option.map_some', Option.some.injEq] at h
              subst h
              obtain ⟨hlen, hall⟩ := ih pvs' hrest
              refine ⟨by simp [hlen], ?_⟩
              intro ps hps
              rcases List.mem_cons.mp hps with rfl | hmem
              · intro hnil
                rw [List.isEmpty_iff.mpr hnil] at hset
                exact absurd hset (by simp)
              · exact hall ps hmem

/-- C7: for inputs with at least 2 way-points, `Init` returns `false` iff
some intermediate way-point's nearest-edge query yields no edges (an empty
pivot list); on success there are exactly `num_points - 1` pivot lists and
each is non-empty. -/
theorem init_spec {G : Type} (ops : GraphOps G) (graph : G)
    (points : List WayPoint) (positiveOffsetM negativeOffsetM : ℚ)
    (h2 : 2 ≤ points.length) :
    ∃ r, init ops graph points positiveOffsetM negativeOffsetM = some r ∧
      (r = none ↔ ∃ wp ∈ intermediatePoints points,
        (GraphOps.findClosestEdges ops (ops.resetFakes graph) wp.point
          kMaxRoadCandidates) = []) ∧
      (∀ st, r = some st →
        st.pivots.length + 1 = points.length ∧ ∀ ps ∈ st.pivots, ps ≠ []) := by
  unfold init
  rw [if_neg (not_lt.mpr h2)]
  cases hb : buildPivots ops (ops.resetFakes graph) (intermediatePoints points) with
  | none =>
      refine ⟨none, rfl, ?_, ?_⟩
      · simp only [true_iff]
        obtain ⟨wp, hmem, hempty⟩ := (buildPivots_eq_none_iff _ _ _).mp hb
        exact ⟨wp, hmem, (pivotsOfVicinity_eq_nil_iff _).mp hempty⟩
      · intro st hst
        exact absurd hst (by simp)
  | some pvs =>
      refine ⟨some _, rfl, ?_, ?_⟩
      · simp only [Option.some_ne_none, false_iff]
        rintro ⟨wp, hmem, hempty⟩
        have : buildPivots ops (ops.resetFakes graph)
            (intermediatePoints points) = none :=
          (buildPivots_eq_none_iff _ _ _).mpr
            ⟨wp, hmem, (pivotsOfVicinity_eq_nil_iff _).mpr hempty⟩
        rw [hb] at this
        exact absurd this (by simp)
      · intro st hst
        simp only [Option.some.injEq] at hst
        subst hst
        obtain ⟨hlen, hall⟩ := buildPivots_eq_some ops _ _ pvs hb
        constructor
        · simp only [List.length_append, List.length_singleton]
          have hint : (intermediatePoints points).length = points.length - 1 - 1 := by
            unfold intermediatePoints
            simp
          omega
        · intro ps hps
          rcases List.mem_append.mp hps with hmem | hmem
          · exact hall ps hmem
          · rcases List.mem_singleton.mp hmem with rfl
            simp

/-- Witness for C7: a two-way-point input over the trivial graph (no
intermediate way-points, so `Init` succeeds). -/
theorem init_spec_witness :
    2 ≤ ([⟨(0, 0), 1, 0, 0⟩, ⟨(1, 0), 1, 0, 0⟩] : List WayPoint).length ∧
    ∃ r, init ⟨fun _ _ _ => [], fun g => g, fun g _ _ => g, fun _ _ => [],
        fun _ _ => [], fun _ _ => [], fun _ _ => []⟩ ()
        [⟨(0, 0), 1, 0, 0⟩, ⟨(1, 0), 1, 0, 0⟩] 0 0 = some r ∧
      (r = none ↔ ∃ wp ∈ intermediatePoints
          [⟨(0, 0), 1, 0, 0⟩, ⟨(1, 0), 1, 0, 0⟩],
        (GraphOps.findClosestEdges
          (⟨fun _ _ _ => [], fun g => g, fun g _ _ => g, fun _ _ => [],
            fun _ _ => [], fun _ _ => [], fun _ _ => []⟩ : GraphOps Unit)
          (GraphOps.resetFakes
            (⟨fun _ _ _ => [], fun g => g, fun g _ _ => g, fun _ _ => [],
              fun _ _ => [], fun _ _ => [], fun _ _ => []⟩ : GraphOps Unit) ())
          wp.point kMaxRoadCandidates) = []) ∧
      (∀ st, r = some st →
        st.pivots.length + 1 =
          ([⟨(0, 0), 1, 0, 0⟩, ⟨(1, 0), 1, 0, 0⟩] : List WayPoint).length ∧
        ∀ ps ∈ st.pivots, ps ≠ []) :=
  ⟨by decide, init_spec _ () _ 0 0 (by decide)⟩

/-- `my::clamp` lands in the target interval. -/
theorem clamp_mem (x lo hi : ℚ) (h : lo ≤ hi) :
    lo ≤ clamp x lo hi ∧ clamp x lo hi ≤ hi := by
  unfold clamp
  exact ⟨le_max_left _ _, max_le h (min_le_right _ _)⟩

/-- `my::clamp` is monotone in its argument. -/
theorem clamp_mono {x y : ℚ} (lo hi : ℚ) (h : x ≤ y) :
    clamp x lo hi ≤ clamp y lo hi := by
  unfold clamp
  exact max_le_max le_rfl (min_le_min h le_rfl)

/-- The merge loop produces a non-negative total when every interval and
the open group are well-formed. -/
theorem mergeGo_nonneg (l : List (ℚ × ℚ)) :
    ∀ first last : ℚ, (∀ p ∈ l, p.1 ≤ p.2) → first ≤ last →
      0 ≤ mergeGo first last l := by
  induction l with
  | nil =>
      intro first last _ h
      simpa [mergeGo] using sub_nonneg.mpr h
  | cons p rest ih =>
      intro first last hall h
      obtain ⟨c, d⟩ := p
      unfold mergeGo
      split_ifs with hc
      · exact ih first (max last d) (fun q hq => hall q (List.mem_cons_of_mem _ hq))
          (h.trans (le_max_left _ _))
      · have hcd : c ≤ d := hall (c, d) (List.mem_cons_self _ _)
        exact add_nonneg (sub_nonneg.mpr h) (ih c d
          (fun q hq => hall q (List.mem_cons_of_mem _ hq)) hcd)

/-- The merge loop's total is bounded by the remaining room `1 - first`
when every interval end is at most `1`. -/
theorem mergeGo_le_one_sub (l : List (ℚ × ℚ)) :
    ∀ first last : ℚ, (∀ p ∈ l, p.2 ≤ 1) → last ≤ 1 →
      mergeGo first last l ≤ 1 - first := by
  induction l with
  | nil =>
      intro first last _ h
      simpa [mergeGo] using sub_le_sub_right h first
  | cons p rest ih =>
      intro first last hall h
      obtain ⟨c, d⟩ := p
      unfold mergeGo
      split_ifs with hc
      · exact ih first (max last d)
          (fun q hq => hall q (List.mem_cons_of_mem _ hq))
          (max_le h (hall (c, d) (List.mem_cons_self _ _)))
      · have hrest : mergeGo c d rest ≤ 1 - c :=
          ih c d (fun q hq => hall q (List.mem_cons_of_mem _ hq))
            (hall (c, d) (List.mem_cons_self _ _))
        have hlc : last ≤ c := le_of_not_le hc |>.trans le_rfl
        linarith

/-- Membership is preserved by the insertion sort used to model
`std::sort`. -/
theorem mem_insertPair (p x : ℚ × ℚ) (l : List (ℚ × ℚ)) :
    x ∈ insertPair p l ↔ x = p ∨ x ∈ l := by
  induction l with
  | nil => simp [insertPair]
  | cons q rest ih =>
      unfold insertPair
      split_ifs with h
      · simp [List.mem_cons]
      · simp only [List.mem_cons, ih]
        tauto

/-- Membership is preserved by `sortPairs`. -/
theorem mem_sortPairs (x : ℚ × ℚ) (l : List (ℚ × ℚ)) :
    x ∈ sortPairs l ↔ x ∈ l := by
  induction l with
  | nil => simp [sortPairs]
  | cons p rest ih =>
      unfold sortPairs
      rw [mem_insertPair]
      simp [ih]

/-- Each collected coverage interval lies within `[0, 1]` and is
well-ordered. -/
theorem coverageIntervals_mem (env : Env) (u v : Point) (edges : List Edge) :
    ∀ p ∈ coverageIntervals env u v edges, 0 ≤ p.1 ∧ p.1 ≤ p.2 ∧ p.2 ≤ 1 := by
  intro p hp
  obtain ⟨e, _, hfa⟩ := List.mem_filterMap.mp hp
  simp only at hfa
  split_ifs at hfa
  all_goals simp only [Option.some.injEq] at hfa
  subst hfa
  exact ⟨(clamp_mem _ 0 1 (by norm_num)).1, clamp_mono 0 1 min_le_max,
    (clamp_mem _ 0 1 (by norm_num)).2⟩

/-- The sorted-merge union of well-formed subintervals of `[0, 1]` has
total length in `[0, 1]`. -/
theorem mergeCovs_in_unit (l : List (ℚ × ℚ))
    (h : ∀ p ∈ l, 0 ≤ p.1 ∧ p.1 ≤ p.2 ∧ p.2 ≤ 1) :
    0 ≤ mergeCovs l ∧ mergeCovs l ≤ 1 := by
  cases l with
  | nil => simp [mergeCovs]
  | cons p rest =>
      obtain ⟨a, b⟩ := p
      have hhead := h (a, b) (List.mem_cons_self _ _)
      have hrest1 : ∀ q ∈ rest, q.1 ≤ q.2 :=
        fun q hq => (h q (List.mem_cons_of_mem _ hq)).2.1
      have hrest2 : ∀ q ∈ rest, q.2 ≤ 1 :=
        fun q hq => (h q (List.mem_cons_of_mem _ hq)).2.2
      constructor
      · simpa [mergeCovs] using mergeGo_nonneg rest a b hrest1 hhead.2.1
      · have hle := mergeGo_le_one_sub rest a b hrest2 hhead.2.2
        have h0 : (0 : ℚ) ≤ a := hhead.1
        simp only [mergeCovs]
        linarith

/-- C9: `GetCoverage` always returns a value in `[0, 1]`: the clamped
per-edge intervals are merged into disjoint unions whose total length never
exceeds the candidate's normalised length `1` (for every environment and
every list of search edges). -/
theorem getCoverage_in_unit_interval (env : Env) (u v : Point)
    (edges : List Edge) :
    0 ≤ getCoverage env u v edges ∧ getCoverage env u v edges ≤ 1 := by
  unfold getCoverage
  split_ifs with hshort
  · norm_num
  · exact mergeCovs_in_unit _ (fun p hp =>
      coverageIntervals_mem env u v edges p ((mem_sortPairs p _).mp hp))

/-- An element of `dropWhile` is an element of the original list. -/
theorem mem_of_mem_dropWhile {α : Type} (p : α → Bool) (l : List α) (x : α)
    (h : x ∈ l.dropWhile p) : x ∈ l := by
  induction l with
  | nil => simp [List.dropWhile] at h
  | cons a rest ih =>
      rw [List.dropWhile_cons] at h
      by_cases hp : p a = true
      · simp only [hp, if_true] at h
        exact List.mem_cons_of_mem _ (ih h)
      · simp only [hp, if_false] at h
        exact h

/-- When every trimmed edge is fake, the front reattachment pass finds no
candidate and keeps the sentinel score `-1`. -/
theorem frontBest_all_fake {G : Type} (env : Env) (ops : GraphOps G)
    (graph : G) (icache : Caches) (points : List WayPoint)
    (edges : List Edge) (hfake : ∀ e ∈ edges, e.raw.isFake = true) :
    frontBest env ops graph icache points edges = ((-1, defaultREdge), icache) := by
  unfold frontBest
  cases hd : edges.dropWhile (stagePrefixPred 0) with
  | nil => rfl
  | cons e rest =>
      have he : e.raw.isFake = true :=
        hfake e (mem_of_mem_dropWhile _ _ _ (hd ▸ List.mem_cons_self e rest))
      simp [he]

/-- When every trimmed edge is fake, the back reattachment pass finds no
candidate and keeps the sentinel score `-1`. -/
theorem backBest_all_fake {G : Type} (env : Env) (ops : GraphOps G)
    (graph : G) (ocache : Caches) (points : List WayPoint)
    (edges : List Edge) (hfake : ∀ e ∈ edges, e.raw.isFake = true) :
    backBest env ops graph ocache points edges = ((-1, defaultREdge), ocache) := by
  cases hd : edges.reverse.dropWhile (stagePrefixPred (points.length - 2)) with
  | nil =>
      simp only [backBest]
      rw [hd]
  | cons e rest =>
      have he : e.raw.isFake = true :=
        hfake e (List.mem_reverse.mp
          (mem_of_mem_dropWhile _ _ _ (hd ▸ List.mem_cons_self e rest)))
      simp only [backBest]
      rw [hd]
      simp [he]

/-- C10: if after stripping specials and consuming both offsets no
non-fake edge remains, reconstruction prepends and appends nothing (both
reattachment scores stay at the sentinel `-1`, the non-fake output is
empty) and the result is exactly the single-edge fallback's. -/
theorem reconstruct_all_fake_fallback {G : Type} (env : Env)
    (ops : GraphOps G) (graph : G) (points : List WayPoint)
    (positiveOffsetM negativeOffsetM : ℚ) (ocache icache : Caches)
    (edges0 : List Edge)
    (hfake : ∀ e ∈ stripAndTrim env positiveOffsetM negativeOffsetM edges0,
      e.raw.isFake = true) :
    (frontBest env ops graph icache points
        (stripAndTrim env positiveOffsetM negativeOffsetM edges0)).1 =
      (-1, defaultREdge) ∧
    (backBest env ops graph ocache points
        (stripAndTrim env positiveOffsetM negativeOffsetM edges0)).1 =
      (-1, defaultREdge) ∧
    basePath (stripAndTrim env positiveOffsetM negativeOffsetM edges0) = [] ∧
    reconstructCore env ops graph points positiveOffsetM negativeOffsetM
        ocache icache edges0 =
      findSingleEdgeApproximation env ops graph points
        (stripAndTrim env positiveOffsetM negativeOffsetM edges0) := by
  have hfront := frontBest_all_fake env ops graph icache points _ hfake
  have hback := backBest_all_fake env ops graph ocache points _ hfake
  have hbase : basePath (stripAndTrim env positiveOffsetM negativeOffsetM
      edges0) = [] := by
    unfold basePath
    have : (stripAndTrim env positiveOffsetM negativeOffsetM edges0).filter
        (fun e => !e.raw.isFake) = [] := by
      rw [List.filter_eq_nil_iff]
      intro e he
      simp [hfake e he]
    rw [this]
    rfl
  refine ⟨by rw [hfront], by rw [hback], hbase, ?_⟩
  simp only [reconstructCore]
  rw [hfront, hback, hbase]
  simp [attachFront, attachBack]

/-- A zero offset consumes no prefix. -/
theorem findPrefix_zero (env : Env) (pairs : List (Point × Point)) :
    findPrefixLengthToConsume env pairs 0 = 0 := by
  cases pairs with
  | nil => rfl
  | cons p rest =>
      obtain ⟨u, v⟩ := p
      unfold findPrefixLengthToConsume
      rw [if_neg (lt_irrefl 0)]

/-- With zero offsets, trimming only strips the special edges. -/
theorem stripAndTrim_zero (env : Env) (edges : List Edge) :
    stripAndTrim env 0 0 edges = stripSpecial edges := by
  unfold stripAndTrim trimFront trimBack
  rw [findPrefix_zero, findPrefix_zero]
  simp

/-- Witness for C10: the empty (vacuously all-fake) edge sequence falls
through to the single-edge approximation. -/
theorem reconstruct_all_fake_fallback_witness :
    (∀ e ∈ stripAndTrim wEnv 0 0 ([] : List Edge), e.raw.isFake = true) ∧
    reconstructCore wEnv wOps () [] 0 0 [] [] [] =
      findSingleEdgeApproximation wEnv wOps () [] (stripAndTrim wEnv 0 0 []) := by
  have hyp : ∀ e ∈ stripAndTrim wEnv 0 0 ([] : List Edge),
      e.raw.isFake = true := by
    rw [stripAndTrim_zero]
    intro e he
    simp [stripSpecial] at he
  exact ⟨hyp,
    (reconstruct_all_fake_fallback wEnv wOps () [] 0 0 [] [] [] hyp).2.2.2⟩

/-- The best-candidate fold keeps an upper bound of all scores and either
returns its initial accumulator or an encountered candidate's entry. -/
theorem bestCandidate_fold_spec (score : REdge → ℚ) (store : REdge → REdge)
    (cands : List REdge) :
    ∀ init : ℚ × REdge,
      init.1 ≤ (cands.foldl
        (fun best c => if score c > best.1 then (score c, store c) else best)
        init).1 ∧
      (∀ c ∈ cands, score c ≤ (cands.foldl
        (fun best c => if score c > best.1 then (score c, store c) else best)
        init).1) ∧
      ((cands.foldl
          (fun best c => if score c > best.1 then (score c, store c) else best)
          init) = init ∨
        ∃ c ∈ cands, (cands.foldl
          (fun best c => if score c > best.1 then (score c, store c) else best)
          init) = (score c, store c)) := by
  induction cands with
  | nil =>
      intro init
      exact ⟨le_rfl, by simp, Or.inl rfl⟩
  | cons c cs ih =>
      intro init
      simp only [List.foldl_cons]
      by_cases hc : score c > init.1
      · rw [if_pos hc]
        obtain ⟨h1, h2, h3⟩ := ih (score c, store c)
        refine ⟨le_of_lt (lt_of_lt_of_le hc h1), ?_, ?_⟩
        · intro d hd
          rcases List.mem_cons.mp hd with rfl | hmem
          · exact h1
          · exact h2 d hmem
        · rcases h3 with heq | ⟨d, hmem, heq⟩
          · exact Or.inr ⟨c, List.mem_cons_self _ _, heq⟩
          · exact Or.inr ⟨d, List.mem_cons_of_mem _ hmem, heq⟩
      · rw [if_neg hc]
        obtain ⟨h1, h2, h3⟩ := ih init
        refine ⟨h1, ?_, ?_⟩
        · intro d hd
          rcases List.mem_cons.mp hd with rfl | hmem
          · exact le_trans (le_of_not_lt hc) h1
          · exact h2 d hmem
        · rcases h3 with heq | ⟨d, hmem, heq⟩
          · exact Or.inl heq
          · exact Or.inr ⟨d, List.mem_cons_of_mem _ hmem, heq⟩

/-- `bestCandidate` bounds every candidate's score and returns either the
sentinel `(-1, default)` or a candidate's entry. -/
theorem bestCandidate_spec (score : REdge → ℚ) (store : REdge → REdge)
    (cands : List REdge) :
    (∀ c ∈ cands, score c ≤ (bestCandidate score store cands).1) ∧
    (bestCandidate score store cands = (-1, defaultREdge) ∨
      ∃ c ∈ cands, bestCandidate score store cands = (score c, store c)) := by
  obtain ⟨_, h2, h3⟩ := bestCandidate_fold_spec score store cands (-1, defaultREdge)
  exact ⟨h2, h3⟩

/-- When the stage-0 prefix is followed by a non-fake edge `e`, `frontBest`
is the best-candidate fold over the ingoing candidates of `e.u`. -/
theorem frontBest_eq_of_nonFake {G : Type} (env : Env) (ops : GraphOps G)
    (graph : G) (icache : Caches) (points : List WayPoint)
    (edges : List Edge) (e : Edge) (rest : List Edge)
    (hdrop : edges.dropWhile (stagePrefixPred 0) = e :: rest)
    (hnf : e.raw.isFake = false) :
    frontBest env ops graph icache points edges =
      (bestCandidate
        (fun edge => getMatchingScore env edge.endJ.point edge.startJ.point
          ((edges.takeWhile (stagePrefixPred 0)).reverse.map Edge.toPairRev))
        REdge.reverse
        (frontCandidates env ops graph icache
          (points.headD defaultWP).lfrcnp e.u).1,
       (frontCandidates env ops graph icache
          (points.headD defaultWP).lfrcnp e.u).2) := by
  simp only [frontBest]
  rw [hdrop]
  simp [hnf]

/-- C2 (amended): during front reattachment the candidate set consists of
the ingoing non-fake edges at the starting vertex of the first non-fake
stage-0 edge that pass `waypoints[0].lfrcnp`, enumerated from the graph's
(cached) regular and fake ingoing edges only — the nearest-edge query is
not consulted; a maximal-score candidate is recorded reversed, and the
reattached edge is prepended exactly when its score is at least `0.5`, the
trimmed non-fake path is non-empty and its front differs from it. -/
theorem front_reattachment_spec {G : Type} (env : Env) (ops : GraphOps G)
    (graph : G) (points : List WayPoint)
    (positiveOffsetM negativeOffsetM : ℚ) (ocache icache : Caches)
    (edges0 : List Edge) :
    (∀ e rest,
      (stripAndTrim env positiveOffsetM negativeOffsetM edges0).dropWhile
        (stagePrefixPred 0) = e :: rest →
      e.raw.isFake = false →
      ((∀ cand, cand ∈ (frontCandidates env ops graph icache
          (points.headD defaultWP).lfrcnp e.u).1 ↔
          (cand ∈ (getIngoingEdges ops graph icache e.u.junction).1 ∧
            passesRestriction env cand (points.headD defaultWP).lfrcnp = true ∧
            cand.isFake = false)) ∧
        (∀ cand ∈ (frontCandidates env ops graph icache
            (points.headD defaultWP).lfrcnp e.u).1,
          getMatchingScore env cand.endJ.point cand.startJ.point
            (((stripAndTrim env positiveOffsetM negativeOffsetM
              edges0).takeWhile (stagePrefixPred 0)).reverse.map
              Edge.toPairRev) ≤
            (frontBest env ops graph icache points
              (stripAndTrim env positiveOffsetM negativeOffsetM edges0)).1.1) ∧
        ((frontBest env ops graph icache points
            (stripAndTrim env positiveOffsetM negativeOffsetM edges0)).1 =
              (-1, defaultREdge) ∨
          ∃ cand ∈ (frontCandidates env ops graph icache
            (points.headD defaultWP).lfrcnp e.u).1,
            (frontBest env ops graph icache points
              (stripAndTrim env positiveOffsetM negativeOffsetM edges0)).1 =
              (getMatchingScore env cand.endJ.point cand.startJ.point
                (((stripAndTrim env positiveOffsetM negativeOffsetM
                  edges0).takeWhile (stagePrefixPred 0)).reverse.map
                  Edge.toPairRev), cand.reverse)))) ∧
    (∀ fr (path : List REdge),
      (attachFront fr path = fr.2 :: path ∧
        (fr.1 ≥ 1 / 2 ∧ path ≠ [] ∧ path.head? ≠ some fr.2)) ∨
      (attachFront fr path = path ∧
        ¬(fr.1 ≥ 1 / 2 ∧ path ≠ [] ∧ path.head? ≠ some fr.2))) ∧
    reconstructCore env ops graph points positiveOffsetM negativeOffsetM
        ocache icache edges0 =
      (if attachBack (backBest env ops graph ocache points
            (stripAndTrim env positiveOffsetM negativeOffsetM edges0)).1
          (attachFront (frontBest env ops graph icache points
              (stripAndTrim env positiveOffsetM negativeOffsetM edges0)).1
            (basePath (stripAndTrim env positiveOffsetM negativeOffsetM
              edges0))) = [] then
        findSingleEdgeApproximation env ops graph points
          (stripAndTrim env positiveOffsetM negativeOffsetM edges0)
      else
        attachBack (backBest env ops graph ocache points
            (stripAndTrim env positiveOffsetM negativeOffsetM edges0)).1
          (attachFront (frontBest env ops graph icache points
              (stripAndTrim env positiveOffsetM negativeOffsetM edges0)).1
            (basePath (stripAndTrim env positiveOffsetM negativeOffsetM
              edges0)))) := by
  refine ⟨?_, ?_, rfl⟩
  · intro e rest hdrop hnf
    refine ⟨?_, ?_, ?_⟩
    · intro cand
      unfold frontCandidates
      simp only [List.mem_filter, Bool.and_eq_true, Bool.not_eq_true']
    · intro cand hcand
      rw [frontBest_eq_of_nonFake env ops graph icache points _ e rest hdrop hnf]
      exact (bestCandidate_spec _ REdge.reverse _).1 cand hcand
    · rw [frontBest_eq_of_nonFake env ops graph icache points _ e rest hdrop hnf]
      exact (bestCandidate_spec _ REdge.reverse _).2
  · intro fr path
    unfold attachFront
    split_ifs with h
    · exact Or.inl ⟨rfl, h⟩
    · exact Or.inr ⟨rfl, h⟩

/-- Witness for C2: the candidate-set characterization instantiated on the
concrete reattachment scenario. -/
theorem front_reattachment_spec_witness :
    ((stripAndTrim wEnv 0 0 [cexF1, cexR1]).dropWhile (stagePrefixPred 0) =
        cexR1 :: [] ∧ cexR1.raw.isFake = false) ∧
    (∀ cand, cand ∈ (frontCandidates wEnv cexOps () []
        (cexPts.headD defaultWP).lfrcnp cexR1.u).1 ↔
      (cand ∈ (getIngoingEdges cexOps () [] cexR1.u.junction).1 ∧
        passesRestriction wEnv cand (cexPts.headD defaultWP).lfrcnp = true ∧
        cand.isFake = false)) := by
  have hdrop : (stripAndTrim wEnv 0 0 [cexF1, cexR1]).dropWhile
      (stagePrefixPred 0) = cexR1 :: [] := by
    rw [stripAndTrim_zero]
    rfl
  exact ⟨⟨hdrop, rfl⟩,
    ((front_reattachment_spec wEnv cexOps () cexPts 0 0 [] []
      [cexF1, cexR1]).1 cexR1 [] hdrop rfl).1⟩

/-- Counterexample for C2 as frozen: at this input the nearest-edge query
yields the real ingoing candidate `cexE` (passing the class restriction)
whose matching score is `1 ≥ 0.5`, yet reconstruction does not prepend its
reverse — the front-reattachment pass never consults the nearest-edge
query and finds no candidate in the graph's ingoing enumeration. -/
theorem front_reattachment_cex :
    cexE ∈ (GraphOps.findClosestEdges cexOps () cexVB.junction.point
      kMaxRoadCandidates).map Prod.fst ∧
    cexE.isFake = false ∧
    passesRestriction wEnv cexE (cexPts.headD defaultWP).lfrcnp = true ∧
    getMatchingScore wEnv cexE.endJ.point cexE.startJ.point
      (((stripAndTrim wEnv 0 0 [cexF1, cexR1]).takeWhile
        (stagePrefixPred 0)).reverse.map Edge.toPairRev) = 1 ∧
    (1 : ℚ) ≥ 1 / 2 ∧
    (reconstructCore wEnv cexOps () cexPts 0 0 [] [] [cexF1, cexR1]).head? ≠
      some cexE.reverse := by
  have htake : ((stripAndTrim wEnv 0 0 [cexF1, cexR1]).takeWhile
      (stagePrefixPred 0)).reverse.map Edge.toPairRev =
      [(((1 : ℚ), (0 : ℚ)), ((0 : ℚ), (0 : ℚ)))] := by
    rw [stripAndTrim_zero]
    rfl
  have hfront : frontBest wEnv cexOps () [] cexPts [cexF1, cexR1] =
      ((-1, defaultREdge), [(cexJB, [])]) := rfl
  have hback : backBest wEnv cexOps () [] cexPts [cexF1, cexR1] =
      ((-1, defaultREdge), [(cexJC, [])]) := rfl
  have hbase : basePath [cexF1, cexR1] = [cexRealRaw] := rfl
  have hstrip : stripAndTrim wEnv 0 0 [cexF1, cexR1] = [cexF1, cexR1] := by
    rw [stripAndTrim_zero]
    rfl
  have hrc : reconstructCore wEnv cexOps () cexPts 0 0 [] [] [cexF1, cexR1] =
      [cexRealRaw] := by
    simp only [reconstructCore, hstrip, hfront, hback, hbase]
    norm_num [attachFront, attachBack]
  refine ⟨?_, rfl, ?_, ?_, by norm_num, ?_⟩
  · simp [cexOps, cexVB, cexJB]
  · rfl
  · rw [htake]
    norm_num [getMatchingScore, matchingCov, wEnv, dotProduct, psub, clamp,
      cexE, cexJA, cexJB]
  · rw [hrc]
    simp [cexRealRaw, cexE, REdge.reverse, cexJA, cexJB, cexJC]

/-- One loop step: an empty queue returns `false` with the caller's path
untouched. -/
theorem findPathLoop_step_none {G : Type} (env : Env) (ops : GraphOps G)
    (rs : RouterState G) (s : Vertex) (piS : ℚ) (path0 : List REdge)
    (n : ℕ) (st : SearchCtx) (ocache icache : Caches)
    (hpop : popMin st.queue = none) :
    findPathLoop env ops rs s piS path0 (n + 1) st ocache icache =
      some (false, path0) := by
  unfold findPathLoop
  rw [hpop]

/-- One loop step: a stale entry is discarded. -/
theorem findPathLoop_step_stale {G : Type} (env : Env) (ops : GraphOps G)
    (rs : RouterState G) (s : Vertex) (piS : ℚ) (path0 : List REdge)
    (n : ℕ) (st : SearchCtx) (ocache icache : Caches) (su : Score ℚ)
    (u : Vertex) (queue' : List (Score ℚ × Vertex))
    (hpop : popMin st.queue = some ((su, u), queue'))
    (hstale : lookupScore st.scores u ≠ some su) :
    findPathLoop env ops rs s piS path0 (n + 1) st ocache icache =
      findPathLoop env ops rs s piS path0 n ⟨queue', st.scores, st.links⟩
        ocache icache := by
  conv_lhs => rw [findPathLoop]
  rw [hpop]
  simp only [if_pos hstale]

/-- One loop step: a current final vertex reconstructs the path found by
the back-link walk. -/
theorem findPathLoop_step_final {G : Type} (env : Env) (ops : GraphOps G)
    (rs : RouterState G) (s : Vertex) (piS : ℚ) (path0 : List REdge)
    (n : ℕ) (st : SearchCtx) (ocache icache : Caches) (su : Score ℚ)
    (u : Vertex) (queue' : List (Score ℚ × Vertex)) (edges : List Edge)
    (hpop : popMin st.queue = some ((su, u), queue'))
    (hcur : lookupScore st.scores u = some su)
    (hfin : isFinalVertex rs.points.length u = true)
    (hbt : backtrack st.links s (st.links.length + 1) u = some edges) :
    findPathLoop env ops rs s piS path0 (n + 1) st ocache icache =
      some (reconstructPath env ops rs.graph rs.points rs.positiveOffsetM
        rs.negativeOffsetM ocache icache edges.reverse) := by
  unfold findPathLoop
  rw [hpop]
  simp only [if_neg (not_not_intro hcur), hfin, if_true, hbt]

/-- One loop step: a final vertex whose back-link walk fails yields no
result (unreachable in the source; the walk is fuelled in the model). -/
theorem findPathLoop_step_final_none {G : Type} (env : Env)
    (ops : GraphOps G) (rs : RouterState G) (s : Vertex) (piS : ℚ)
    (path0 : List REdge) (n : ℕ) (st : SearchCtx) (ocache icache : Caches)
    (su : Score ℚ) (u : Vertex) (queue' : List (Score ℚ × Vertex))
    (hpop : popMin st.queue = some ((su, u), queue'))
    (hcur : lookupScore st.scores u = some su)
    (hfin : isFinalVertex rs.points.length u = true)
    (hbt : backtrack st.links s (st.links.length + 1) u = none) :
    findPathLoop env ops rs s piS path0 (n + 1) st ocache icache = none := by
  unfold findPathLoop
  rw [hpop]
  simp only [if_neg (not_not_intro hcur), hfin, if_true, hbt]

/-- One loop step: a current non-final vertex is expanded. -/
theorem findPathLoop_step_expand {G : Type} (env : Env) (ops : GraphOps G)
    (rs : RouterState G) (s : Vertex) (piS : ℚ) (path0 : List REdge)
    (n : ℕ) (st : SearchCtx) (ocache icache : Caches) (su : Score ℚ)
    (u : Vertex) (queue' : List (Score ℚ × Vertex))
    (hpop : popMin st.queue = some ((su, u), queue'))
    (hcur : lookupScore st.scores u = some su)
    (hfin : isFinalVertex rs.points.length u = false) :
    findPathLoop env ops rs s piS path0 (n + 1) st ocache icache =
      findPathLoop env ops rs s piS path0 n
        (expandVertex env ops rs piS ⟨queue', st.scores, st.links⟩ ocache
          icache su u).1
        (expandVertex env ops rs piS ⟨queue', st.scores, st.links⟩ ocache
          icache su u).2.1
        (expandVertex env ops rs piS ⟨queue', st.scores, st.links⟩ ocache
          icache su u).2.2 := by
  conv_lhs => rw [findPathLoop]
  rw [hpop]
  simp only [if_neg (not_not_intro hcur), hfin, Bool.false_eq_true, if_false]

/-- The boolean computed by `ReconstructPath` mirrors the emptiness of the
path it filled. -/
theorem reconstructPath_fst_iff {G : Type} (env : Env) (ops : GraphOps G)
    (graph : G) (points : List WayPoint)
    (positiveOffsetM negativeOffsetM : ℚ) (ocache icache : Caches)
    (edges0 : List Edge) :
    ((reconstructPath env ops graph points positiveOffsetM negativeOffsetM
        ocache icache edges0).1 = true ↔
      (reconstructPath env ops graph points positiveOffsetM negativeOffsetM
        ocache icache edges0).2 ≠ []) := by
  simp only [reconstructPath]
  generalize reconstructCore env ops graph points positiveOffsetM
    negativeOffsetM ocache icache edges0 = p
  cases p <;> simp

/-- Every terminating run of the search loop started with an empty output
vector returns `true` exactly when the returned path is non-empty. -/
theorem findPathLoop_result {G : Type} (env : Env) (ops : GraphOps G)
    (rs : RouterState G) (s : Vertex) (piS : ℚ) :
    ∀ (fuel : ℕ) (st : SearchCtx) (ocache icache : Caches) (b : Bool)
      (path : List REdge),
      findPathLoop env ops rs s piS [] fuel st ocache icache =
        some (b, path) →
      (b = true ↔ path ≠ []) := by
  intro fuel
  induction fuel with
  | zero =>
      intro st oc ic b path h
      simp [findPathLoop] at h
  | succ n ih =>
      intro st oc ic b path h
      cases hpop : popMin st.queue with
      | none =>
          rw [findPathLoop_step_none env ops rs s piS [] n st oc ic hpop] at h
          simp only [Option.some.injEq, Prod.mk.injEq] at h
          obtain ⟨hb, hp⟩ := h
          subst hb
          subst hp
          simp
      | some x =>
          obtain ⟨⟨su, u⟩, queue'⟩ := x
          by_cases hstale : lookupScore st.scores u ≠ some su
          · rw [findPathLoop_step_stale env ops rs s piS [] n st oc ic su u
              queue' hpop hstale] at h
            exact ih _ oc ic b path h
          · rw [not_not] at hstale
            cases hfin : isFinalVertex rs.points.length u with
            | true =>
                cases hbt : backtrack st.links s (st.links.length + 1) u with
                | none =>
                    rw [findPathLoop_step_final_none env ops rs s piS [] n st
                      oc ic su u queue' hpop hstale hfin hbt] at h
                    exact absurd h (by simp)
                | some edges =>
                    rw [findPathLoop_step_final env ops rs s piS [] n st oc ic
                      su u queue' edges hpop hstale hfin hbt] at h
                    simp only [Option.some.injEq] at h
                    have hiff := reconstructPath_fst_iff env ops rs.graph
                      rs.points rs.positiveOffsetM rs.negativeOffsetM oc ic
                      edges.reverse
                    rw [h] at hiff
                    exact hiff
            | false =>
                rw [findPathLoop_step_expand env ops rs s piS [] n st oc ic
                  su u queue' hpop hstale hfin] at h
                exact ih _ _ _ b path h

/-- C1 (amended): whenever `Go` is called with an empty output vector and
returns normally, the boolean result is `true` iff the returned path is
non-empty.  (On the failure returns the code leaves the caller's vector
untouched, so the equivalence requires the vector to start empty.) -/
theorem go_success_iff_nonempty {G : Type} (env : Env) (ops : GraphOps G)
    (graph : G) (points : List WayPoint)
    (positiveOffsetM negativeOffsetM : ℚ) (ocache icache : Caches)
    (fuel : ℕ) (b : Bool) (path : List REdge)
    (h : go env ops graph points positiveOffsetM negativeOffsetM ocache
      icache fuel [] = some (b, path)) :
    b = true ↔ path ≠ [] := by
  unfold go at h
  cases hinit : init ops graph points positiveOffsetM negativeOffsetM with
  | none => rw [hinit] at h; simp at h
  | some r =>
      rw [hinit] at h
      cases r with
      | none =>
          simp only [Option.some.injEq, Prod.mk.injEq] at h
          obtain ⟨hb, hp⟩ := h
          subst hb
          subst hp
          simp
      | some rs =>
          unfold findPath at h
          exact findPathLoop_result env ops rs _ _ fuel _ _ _ b path h

/-- Witness for C1 (amended): `Go` with two way-points on the empty graph
exhausts the search, returning `false` with an empty path. -/
theorem go_success_iff_nonempty_witness :
    go wEnv wOps () c1Pts2 0 0 [] [] 2 [] = some (false, []) ∧
    ((false = true) ↔ (([] : List REdge) ≠ [])) := by
  have hex : expandVertex wEnv wOps c1RS 1 ⟨[], [(c1S, Score.init)], []⟩ [] []
      Score.init c1S = (⟨[], [(c1S, Score.init)], []⟩, [(⟨(0, 0), 0⟩, [])], []) := by
    norm_num [expandVertex, getPotential, isFinalVertex, nearNextStage,
      mayMoveToNextStage, forEachEdgeList, getOutgoingEdges, getEdges,
      cacheFind, kEps, kDistanceAccuracyM, wEnv, wOps, Score.init, c1RS, c1S,
      c1Pts2, max_def, pushVertex]
  have h1 : findPathLoop wEnv wOps c1RS c1S 1 [] 2
      ⟨[(Score.init, c1S)], [(c1S, Score.init)], []⟩ [] [] =
      some (false, []) := by
    rw [show (2 : ℕ) = 1 + 1 from rfl]
    rw [findPathLoop_step_expand wEnv wOps c1RS c1S 1 [] 1
      ⟨[(Score.init, c1S)], [(c1S, Score.init)], []⟩ [] [] Score.init c1S []
      rfl rfl rfl]
    rw [hex]
    exact findPathLoop_step_none wEnv wOps c1RS c1S 1 [] 0 _ _ _ rfl
  have hrun : go wEnv wOps () c1Pts2 0 0 [] [] 2 [] = some (false, []) := by
    have hinit : init wOps () c1Pts2 0 0 = some (some c1RS) := rfl
    unfold go
    rw [hinit]
    exact h1
  exact ⟨hrun, go_success_iff_nonempty wEnv wOps () c1Pts2 0 0 [] [] 2 false
    [] hrun⟩

/-- Counterexample for C1 as frozen: a call whose `Init` fails (the
intermediate way-point has no nearby edges) returns `false` but leaves the
caller's non-empty path vector untouched, so the returned path is not
empty on this failure. -/
theorem go_failure_nonempty_path_cex :
    go wEnv wOps () c1Pts3 0 0 [] [] 1 [cexRealRaw] =
      some (false, [cexRealRaw]) ∧
    ¬((false = true) ↔ (([cexRealRaw] : List REdge) ≠ [])) := by
  constructor
  · rfl
  · simp

end OpenLR
